import Mathlib

/-!
Verification development for the `evolutions` database-migration library.

The development shallowly embeds the program's core:

* `src/files.ts` — the line-oriented SQL script parser (`parseSqlFile`),
  modelled as a fold of `stepLine` over the list of input lines;
* `src/checksum.ts` — `generateChecksum` (trim, drop blanks, join with
  a semicolon separator, SHA-1, hex), with SHA-1 implemented over `Nat`
  bytes/words per FIPS 180-4 (the source delegates to node:crypto);
* `src/evolutions.ts` — the evolution engine (`hasDown`, `apply`,
  `applyUp`, `applyDown`, `downgrade`, `downTo`, `hasSchema`,
  `getCurrent`), modelled as state-passing computations over a database
  model with an explicit transaction snapshot and a trace of issued
  operations.

JavaScript string primitives used by the source (`trim`, `startsWith`,
`endsWith`) are modelled over `List Char`; only ASCII whitespace is
relevant to the scripts involved.
-/

/-! ## JavaScript-style string helpers -/

/-- Whitespace as recognised by the JS `trim` used in `files.ts` and
`checksum.ts` (ASCII subset; the scripts contain no exotic whitespace). -/
def isJsWhitespace (c : Char) : Bool :=
  c == ' ' || c == '\t' || c == '\n' || c == '\r' || c == '\x0b' || c == '\x0c'

/-- Drop leading whitespace from a character list. -/
def trimLeadChars (cs : List Char) : List Char := cs.dropWhile isJsWhitespace

/-- Drop trailing whitespace from a character list. -/
def trimTrailChars (cs : List Char) : List Char :=
  (cs.reverse.dropWhile isJsWhitespace).reverse

/-- Characters of a JS `s.trim()`. -/
def jsTrimChars (cs : List Char) : List Char := trimLeadChars (trimTrailChars cs)

/-- Model of JS `String.prototype.trim`. -/
def jsTrim (s : String) : String := ⟨jsTrimChars s.data⟩

/-- Model of JS `String.prototype.startsWith`. -/
def jsStartsWith (s pre : String) : Bool := pre.data.isPrefixOf s.data

/-- Model of JS `String.prototype.endsWith`. -/
def jsEndsWith (s suf : String) : Bool := suf.data.isSuffixOf s.data

/-! ## Data model (`src/models.ts`) -/

/-- An `Evolution` as produced by the parser: ordered `ups`, optional
ordered `downs` (`src/models.ts`). -/
structure Evolution where
  ups : List String
  downs : Option (List String)
deriving DecidableEq

/-- A `LoadedEvolution`: an evolution together with its checksum and
1-based version (`src/models.ts`).  The same shape serves as the
persisted `EvolutionRecord` row; `evolutionApplied`/`getCurrent`
serialize and deserialize `ups`/`downs` through JSON: the columns are
JSONB (see the bootstrap DDL of `schema.sql.js`, appended at the end of
`src/cli.ts`), so the round trip is the identity on lists of strings and
is modelled as such. -/
structure LoadedEvolution where
  version : Nat
  checksum : String
  ups : List String
  downs : Option (List String)
deriving DecidableEq

/-! ## Script parser (`src/files.ts`, `parseSqlFile`) -/

/-- Mutable state of the `parseSqlFile` line handler: the two output
lists, which of them is the current push target (`curIsDowns` models the
`current` alias), the statement accumulation buffer, and the block
flag. -/
structure ParseState where
  ups : List String
  downs : List String
  curIsDowns : Bool
  statement : String
  inBlock : Bool
deriving DecidableEq

/-- Push a finished statement onto the current target list
(`current.push(...)` in the source). -/
def pushCur (st : ParseState) (x : String) : ParseState :=
  if st.curIsDowns then { st with downs := st.downs ++ [x] }
  else { st with ups := st.ups ++ [x] }

/-- One step of the `reader.on('line', ...)` handler of `parseSqlFile`
(`src/files.ts` lines 36–61), translated branch for branch. -/
def stepLine (st : ParseState) (line : String) : ParseState :=
  let trimmed := jsTrim line
  let st1 := if st.statement.length > 0
    then { st with statement := st.statement ++ "\n" } else st
  if trimmed.length == 0 then
    st1
  else if trimmed == "-- DOWN --" then
    { st1 with curIsDowns := true }
  else if trimmed == "-- BLOCK --" then
    { st1 with inBlock := true }
  else if st1.inBlock && trimmed == "-- BLOCK END --" then
    if (jsTrim st1.statement).length > 0 then
      { pushCur st1 (jsTrim st1.statement) with statement := "", inBlock := false }
    else
      { st1 with inBlock := false }
  else if jsStartsWith trimmed "--" then
    st1
  else
    let st2 := { st1 with statement := st1.statement ++ trimmed }
    if !st2.inBlock && jsEndsWith trimmed ";" then
      { pushCur st2 st2.statement with statement := "" }
    else
      st2

/-- Initial state of `parseSqlFile`: empty lists, target `ups`, empty
buffer, not in a block. -/
def initialParseState : ParseState := ⟨[], [], false, "", false⟩

/-- The `reader.on('close', ...)` handler: flush a pending statement and
assemble the result (`downs` is present only when non-empty). -/
def finishParse (st : ParseState) : Evolution :=
  let st' := if st.statement.length > 0 then pushCur st st.statement else st
  { ups := st'.ups
    downs := if st'.downs.length > 0 then some st'.downs else none }

/-- Model of `parseSqlFile` (`src/files.ts`): the input stream is the
list of its lines, processed in order by `stepLine`. -/
def parseSqlFile (lines : List String) : Evolution :=
  finishParse (lines.foldl stepLine initialParseState)

/-- Accumulation of the statement buffer over the lines of a
`-- BLOCK --` region: every line first contributes the newline join (if
the buffer is non-empty); blank lines and `--`-lines contribute nothing
further; content lines append their trimmed text.  This mirrors what
`stepLine` does to `statement` while `inBlock` is set. -/
def blockAcc (acc : String) (ls : List String) : String :=
  ls.foldl
    (fun a l =>
      let a1 := if a.length > 0 then a ++ "\n" else a
      let t := jsTrim l
      if t.length == 0 then a1
      else if jsStartsWith t "--" then a1
      else a1 ++ t)
    acc

/-! ## Checksum (`src/checksum.ts`) with SHA-1 per FIPS 180-4 -/

/-- Truncate to 32 bits. -/
def w32 (n : Nat) : Nat := n % 4294967296

/-- Rotate a 32-bit word left by `k` bits. -/
def rotl32 (n k : Nat) : Nat := w32 ((n <<< k) ||| (n >>> (32 - k)))

/-- Bitwise complement within 32 bits (inputs are kept below 2^32). -/
def not32 (n : Nat) : Nat := 4294967295 - n

/-- UTF-8 encoding of one character, as byte values. -/
def utf8Char (c : Char) : List Nat :=
  let n := c.toNat
  if n < 128 then [n]
  else if n < 2048 then [192 + n / 64, 128 + n % 64]
  else if n < 65536 then [224 + n / 4096, 128 + (n / 64) % 64, 128 + n % 64]
  else [240 + n / 262144, 128 + (n / 4096) % 64, 128 + (n / 64) % 64, 128 + n % 64]

/-- UTF-8 bytes of a string (node's hash `update` consumes UTF-8). -/
def utf8Bytes (s : String) : List Nat :=
  s.data.foldr (fun c acc => utf8Char c ++ acc) []

/-- Big-endian 8-byte encoding of a number (the SHA-1 length field). -/
def be64 (n : Nat) : List Nat :=
  [n / 72057594037927936 % 256, n / 281474976710656 % 256,
   n / 1099511627776 % 256, n / 4294967296 % 256,
   n / 16777216 % 256, n / 65536 % 256, n / 256 % 256, n % 256]

/-- SHA-1 padding: append `0x80`, zero bytes to 56 mod 64, then the
bit length, big-endian. -/
def sha1Pad (msg : List Nat) : List Nat :=
  let padZeros := (119 - msg.length % 64) % 64
  msg ++ [128] ++ List.replicate padZeros 0 ++ be64 (msg.length * 8)

/-- Combine bytes into big-endian 32-bit words. -/
def bytesToWords : List Nat → List Nat
  | a :: b :: c :: d :: rest => (a * 16777216 + b * 65536 + c * 256 + d) :: bytesToWords rest
  | _ => []

/-- Extend the 16-word message schedule by `k` additional words. -/
def extendWords (w : List Nat) : Nat → List Nat
  | 0 => w
  | k + 1 =>
    let n := w.length
    let next := rotl32 (((w.getD (n - 3) 0 ^^^ w.getD (n - 8) 0) ^^^
      w.getD (n - 14) 0) ^^^ w.getD (n - 16) 0) 1
    extendWords (w ++ [next]) k

/-- Round function of SHA-1. -/
def sha1F (t b c d : Nat) : Nat :=
  if t < 20 then (b &&& c) ||| (not32 b &&& d)
  else if t < 40 then (b ^^^ c) ^^^ d
  else if t < 60 then ((b &&& c) ||| (b &&& d)) ||| (c &&& d)
  else (b ^^^ c) ^^^ d

/-- Round constant of SHA-1. -/
def sha1K (t : Nat) : Nat :=
  if t < 20 then 1518500249
  else if t < 40 then 1859775393
  else if t < 60 then 2400959708
  else 3395469782

/-- The five-word SHA-1 state. -/
structure Sha1State where
  a : Nat
  b : Nat
  c : Nat
  d : Nat
  e : Nat

/-- One SHA-1 round. -/
def sha1Round (st : Sha1State) (t wt : Nat) : Sha1State :=
  let temp := w32 (rotl32 st.a 5 + sha1F t st.b st.c st.d + st.e + sha1K t + wt)
  ⟨temp, st.a, rotl32 st.b 30, st.c, st.d⟩

/-- Compress one 64-byte block into the running state. -/
def sha1Block (h : Sha1State) (block : List Nat) : Sha1State :=
  let ws := extendWords (bytesToWords block) 64
  let f := (List.range 80).foldl (fun st t => sha1Round st t (ws.getD t 0)) h
  ⟨w32 (h.a + f.a), w32 (h.b + f.b), w32 (h.c + f.c), w32 (h.d + f.d), w32 (h.e + f.e)⟩

/-- Process a padded message 64 bytes at a time (fuel-indexed; the fuel
always dominates the number of blocks). -/
def sha1Blocks (h : Sha1State) (bytes : List Nat) : Nat → Sha1State
  | 0 => h
  | fuel + 1 =>
    match bytes with
    | [] => h
    | _ => sha1Blocks (sha1Block h (bytes.take 64)) (bytes.drop 64) fuel

/-- Initial SHA-1 state. -/
def sha1Init : Sha1State :=
  ⟨1732584193, 4023233417, 2562383102, 271733878, 3285377520⟩

/-- Lowercase hex digit. -/
def hexDigit (d : Nat) : Char := Char.ofNat (if d < 10 then 48 + d else 87 + d)

/-- Lowercase 8-digit hex rendering of a 32-bit word. -/
def hex8 (n : Nat) : String :=
  ⟨[hexDigit (n / 268435456 % 16), hexDigit (n / 16777216 % 16),
    hexDigit (n / 1048576 % 16), hexDigit (n / 65536 % 16),
    hexDigit (n / 4096 % 16), hexDigit (n / 256 % 16),
    hexDigit (n / 16 % 16), hexDigit (n % 16)]⟩

/-- Hex-encoded SHA-1 of a string, as produced by
node's `createHash('sha1').update(sql).digest('hex')`. -/
def sha1Hex (s : String) : String :=
  let padded := sha1Pad (utf8Bytes s)
  let h := sha1Blocks sha1Init padded (padded.length + 1)
  hex8 h.a ++ hex8 h.b ++ hex8 h.c ++ hex8 h.d ++ hex8 h.e

/-- Model of JS `Array.prototype.join(sep)`. -/
def jsJoin (sep : String) : List String → String
  | [] => ""
  | [x] => x
  | x :: xs => x ++ sep ++ jsJoin sep xs

/-- Model of `generateChecksum` (`src/checksum.ts`): trim every
statement, drop the ones that trim to the empty string (JS
`filter(Boolean)`), join the survivors with a semicolon-space separator
and take the hex SHA-1 of the result. -/
def generateChecksum (sqls : List String) : String :=
  sha1Hex (jsJoin "; " ((sqls.map jsTrim).filter (fun s => s ≠ "")))

/-! ## Evolution engine (`src/evolutions.ts`)

The engine is modelled as explicit state passing.  A computation takes a
`ClientState` (the database, an open-transaction snapshot, and an oracle
saying which SQL statements fail) and returns a result (`Except` models
a thrown error), the new state, and the trace of operations issued to
the database session, in order. -/

/-- One operation issued through the pg client.  `stmt` is the execution
of a user SQL statement (an up, a down, or bootstrap DDL); the metadata
reads and writes of the engine are tagged individually. -/
inductive Op where
  | beginTx : Op
  | commitTx : Op
  | rollbackTx : Op
  | stmt : String → Op
  | catalogRead : Op
  | selectCurrent : Op
  | insertRec : Nat → Op
  | deleteRec : Nat → Op
deriving DecidableEq

/-- Database state: whether the EVOLUTIONS metadata table exists in the
configured schema, its rows, and a journal of the user SQL statements
whose effects are (currently) applied. -/
structure DbState where
  schemaExists : Bool
  records : List LoadedEvolution
  journal : List String
deriving DecidableEq

/-- Client session state: the database, the snapshot taken at `BEGIN;`
(restored by `ROLLBACK;`), and the failure oracle for SQL statements. -/
structure ClientState where
  db : DbState
  snapshot : Option DbState
  fails : String → Bool

/-- The engine computation type: state in, result/state/trace out. -/
def EvoM (α : Type) : Type := ClientState → Except String α × ClientState × List Op

/-- Return a value, no effect. -/
def pureE {α : Type} (a : α) : EvoM α := fun s => (Except.ok a, s, [])

/-- Throw an error (`throw Error(...)` in the source). -/
def throwE {α : Type} (msg : String) : EvoM α := fun s => (Except.error msg, s, [])

/-- Sequencing with error short-circuit (the `await` chain). -/
def bindE {α β : Type} (x : EvoM α) (f : α → EvoM β) : EvoM β := fun s =>
  match x s with
  | (Except.ok a, s1, t1) =>
    match f a s1 with
    | (r, s2, t2) => (r, s2, t1 ++ t2)
  | (Except.error msg, s1, t1) => (Except.error msg, s1, t1)

/-- The JS `try`/`catch`. -/
def tryCatchE {α : Type} (x : EvoM α) (h : String → EvoM α) : EvoM α := fun s =>
  match x s with
  | (Except.ok a, s1, t1) => (Except.ok a, s1, t1)
  | (Except.error msg, s1, t1) =>
    match h msg s1 with
    | (r, s2, t2) => (r, s2, t1 ++ t2)

/-- Execution of `BEGIN;`.  Postgres keeps the already-open transaction
if one exists (warning only); a fresh `BEGIN;` snapshots the database. -/
def queryBegin : EvoM Unit := fun s =>
  match s.snapshot with
  | some _ => (Except.ok (), s, [Op.beginTx])
  | none => (Except.ok (), { s with snapshot := some s.db }, [Op.beginTx])

/-- Execution of `COMMIT;`: keep the current database, drop the
snapshot. -/
def queryCommit : EvoM Unit := fun s =>
  (Except.ok (), { s with snapshot := none }, [Op.commitTx])

/-- Execution of `ROLLBACK;`: restore the snapshot if a transaction is
open. -/
def queryRollback : EvoM Unit := fun s =>
  match s.snapshot with
  | some d => (Except.ok (), { s with db := d, snapshot := none }, [Op.rollbackTx])
  | none => (Except.ok (), s, [Op.rollbackTx])

/-- Execution of one user SQL statement (`client.query(sql)` inside
`applySingle`): it fails when the oracle says so, otherwise its effect
is recorded in the journal. -/
def querySql (sql : String) : EvoM Unit := fun s =>
  if s.fails sql then (Except.error ("statement failed: " ++ sql), s, [Op.stmt sql])
  else
    (Except.ok (),
     { s with db := { s.db with journal := s.db.journal ++ [sql] } },
     [Op.stmt sql])

/-- The row with the greatest version (leftmost on a tie), as selected
by `ORDER BY version DESC LIMIT 1`. -/
def maxRecord : List LoadedEvolution → Option LoadedEvolution
  | [] => none
  | r :: rs =>
    match maxRecord rs with
    | none => some r
    | some m => if m.version > r.version then some m else some r

/-- JS array indexing `arr[i]` for a possibly negative index:
`undefined` out of range. -/
def jsIndex {α : Type} (l : List α) (i : Int) : Option α :=
  if h : 0 ≤ i ∧ i < l.length then l.get ⟨i.toNat, by omega⟩ else none

/-- The engine's per-instance data: the pg client is part of the state,
so an `Evolutions` instance is its desired sequence plus the merged
`Config` (`allowDown` and `ignoreDown` default to `false`; `schema`
defaults to `"public"` and names the schema holding the metadata table —
the `DbState` models that one configured schema's table). -/
structure Engine where
  evolutions : List LoadedEvolution
  allowDown : Bool
  ignoreDown : Bool
  schema : String

/-- First bootstrap DDL statement of `schema.sql.js` (the module appended
at the end of `src/cli.ts`): create the configured schema. -/
def createSchemaStmt (schema : String) : String :=
  "CREATE SCHEMA IF NOT EXISTS " ++ schema

/-- Second bootstrap DDL statement of `schema.sql.js`: create the
`EVOLUTIONS` metadata table (the template literal's embedded newlines and
tabs included). -/
def createTableStmt (schema : String) : String :=
  "CREATE TABLE IF NOT EXISTS " ++ schema ++ ".EVOLUTIONS (\n\t\tversion INTEGER NOT NULL,\n\t\tchecksum VARCHAR(64),\n\t\tapplied TIMESTAMP NOT NULL DEFAULT NOW(),\n\t\tups JSONB,\n\t\tdowns JSONB,\n\t\tPRIMARY KEY(version)\n\t)"

/-- Model of `schema.sql.js`: the list of the two bootstrap DDL
statements returned for a config. -/
def schemaSql (schema : String) : List String :=
  [createSchemaStmt schema, createTableStmt schema]

/-- Execution of one bootstrap DDL statement (`client.query(up)` in
`createSchema`): fallible like any statement; when it succeeds it is
journaled, and if it is the table-creating statement the metadata table
exists afterwards (`IF NOT EXISTS` makes that idempotent). -/
def queryBootstrap (sql : String) (createsTable : Bool) : EvoM Unit := fun s =>
  if s.fails sql then (Except.error ("statement failed: " ++ sql), s, [Op.stmt sql])
  else
    (Except.ok (),
     { s with db := { s.db with
         schemaExists := s.db.schemaExists || createsTable,
         journal := s.db.journal ++ [sql] } },
     [Op.stmt sql])

namespace Evolutions

/-- Model of `hasSchema` (`src/evolutions.ts` lines 189–197): a
read-only catalog query for the metadata table. -/
def hasSchema (_e : Engine) : EvoM Bool := fun s =>
  (Except.ok s.db.schemaExists, s, [Op.catalogRead])

/-- Model of `getCurrent` (lines 199–216): read the row with the
greatest version, deserializing it back into a `LoadedEvolution`. -/
def getCurrent (_e : Engine) : EvoM (Option LoadedEvolution) := fun s =>
  (Except.ok (maxRecord s.db.records), s, [Op.selectCurrent])

/-- Model of `hasDown` (lines 25–41), branch for branch; note the JS
read `this.evolutions[current.version - 1]` (undefined when out of
range, including version 0) and the comparison of `current.checksum`
with `expectedCurrent?.checksum`. -/
def hasDown (e : Engine) : EvoM Bool :=
  bindE (hasSchema e) fun hs =>
  if !hs then pureE false else
  bindE (getCurrent e) fun current =>
  match current with
  | none => pureE false
  | some cur =>
    if cur.version > e.evolutions.length then pureE false
    else
      let expectedCurrent := jsIndex e.evolutions ((cur.version : Int) - 1)
      pureE (decide (expectedCurrent.map LoadedEvolution.checksum ≠ some cur.checksum))

/-- Model of `applySingle` (lines 182–187): execute statements in
order. -/
def applySingle : List String → EvoM Unit
  | [] => pureE ()
  | q :: rest => bindE (querySql q) fun _ => applySingle rest

/-- Model of `evolutionApplied` (lines 225–237): insert the record; the
insert fails on a duplicate version (`version` is the primary key). -/
def evolutionApplied (_e : Engine) (evo : LoadedEvolution) : EvoM Unit := fun s =>
  if s.db.records.any (fun r => r.version == evo.version) then
    (Except.error "duplicate key value violates unique constraint", s,
     [Op.insertRec evo.version])
  else
    (Except.ok (),
     { s with db := { s.db with records := s.db.records ++ [evo] } },
     [Op.insertRec evo.version])

/-- Model of `evolutionDropped` (lines 218–223): delete the rows of that
version. -/
def evolutionDropped (_e : Engine) (evo : LoadedEvolution) : EvoM Unit := fun s =>
  (Except.ok (),
   { s with db := { s.db with
       records := s.db.records.filter (fun r => r.version ≠ evo.version) } },
   [Op.deleteRec evo.version])

/-- Model of `createSchema` (lines 112–121): `BEGIN;`, then each of the
two statements of `schemaSql config` via `client.query` (the two-element
loop unrolled, each statement with its catalog effect: the second one
creates the metadata table), then `COMMIT;`.  There is no `try`/`catch`
here: a failing DDL statement propagates its error with the transaction
left open. -/
def createSchema (e : Engine) : EvoM Unit :=
  bindE queryBegin fun _ =>
  bindE (queryBootstrap (createSchemaStmt e.schema) false) fun _ =>
  bindE (queryBootstrap (createTableStmt e.schema) true) fun _ =>
  queryCommit

/-- Model of `downgrade` (lines 138–155): one transaction around the
recorded downs (if present) and the delete of the record; on failure,
roll back and rethrow. -/
def downgrade (e : Engine) (current : LoadedEvolution) : EvoM Unit :=
  bindE queryBegin fun _ =>
  tryCatchE
    (bindE (match current.downs with
            | some ds => applySingle ds
            | none => pureE ()) fun _ =>
     bindE (evolutionDropped e current) fun _ =>
     queryCommit)
    (fun err => bindE queryRollback fun _ => throwE err)

/-- The body of one iteration of the `applyUp` loop (lines 168–179). -/
def applyUpStep (e : Engine) (evo : LoadedEvolution) : EvoM Unit :=
  bindE queryBegin fun _ =>
  tryCatchE
    (bindE (applySingle evo.ups) fun _ =>
     bindE (evolutionApplied e evo) fun _ =>
     queryCommit)
    (fun err => bindE queryRollback fun _ => throwE err)

/-- The `for (const evo of toApply)` loop of `applyUp`. -/
def applyUpLoop (e : Engine) : List LoadedEvolution → EvoM Unit
  | [] => pureE ()
  | evo :: rest => bindE (applyUpStep e evo) fun _ => applyUpLoop e rest

/-- Model of `applyUp` (lines 157–180): compute the current version (0
with no record) and run the loop over `evolutions.slice(currentVersion)`. -/
def applyUp (e : Engine) : EvoM Unit :=
  bindE (getCurrent e) fun current =>
  let currentVersion := match current with
    | some c => c.version
    | none => 0
  applyUpLoop e (e.evolutions.drop currentVersion)

/-- One iteration of the `applyDown` loop (lines 123–136), fuel-indexed.
The source calls `this.downgrade(current)` at line 129 WITHOUT `await`
(contrast `await this.downgrade(current)` at line 102): the loop's next
`getCurrent()` is queued while the downgrade transaction is still open.
This model is the sequential behaviour the surrounding code and the spec
intend, i.e. with the downgrade awaited; it serves solely as the
documented intended model for the C1 code-bug analysis, and no other
claim's theorem relies on this branch's behaviour.  The fuel bounds the
number of iterations; each successful downgrade deletes at least one
row, so one more than the row count suffices. -/
def applyDownLoop (e : Engine) : Nat → EvoM Unit
  | 0 => pureE ()
  | fuel + 1 =>
    bindE (getCurrent e) fun current =>
    match current with
    | none => pureE ()
    | some cur =>
      let expected := jsIndex e.evolutions ((cur.version : Int) - 1)
      match expected with
      | none => bindE (downgrade e cur) fun _ => applyDownLoop e fuel
      | some exp =>
        if cur.checksum ≠ exp.checksum then
          bindE (downgrade e cur) fun _ => applyDownLoop e fuel
        else pureE ()

/-- Model of `applyDown` (lines 123–136); see `applyDownLoop` for the
missing-await caveat. -/
def applyDown (e : Engine) : EvoM Unit := fun s =>
  applyDownLoop e (s.db.records.length + 1) s

/-- One iteration of the `downTo` loop (lines 100–104), fuel-indexed as
for `applyDownLoop` (here the source does `await this.downgrade`). -/
def downToLoop (e : Engine) (version : Nat) : Nat → EvoM Unit
  | 0 => pureE ()
  | fuel + 1 =>
    bindE (getCurrent e) fun current =>
    match current with
    | none => pureE ()
    | some cur =>
      if cur.version > version then
        bindE (downgrade e cur) fun _ => downToLoop e version fuel
      else pureE ()

/-- Model of `downTo` (lines 94–110): refuse without `allowDown`, else
downgrade unconditionally while the current version exceeds the
target. -/
def downTo (e : Engine) (version : Nat) : EvoM Unit :=
  if !e.allowDown then
    throwE "You must enable allowDown option to apply down migrations. NEVER USE FOR PRODUCTION!"
  else
    fun s => downToLoop e version (s.db.records.length + 1) s

/-- Model of `apply` (lines 43–88): ensure the schema, read the current
version (logging), then — only when the schema pre-existed — detect
drift and either apply downs (`allowDown`), ignore them (`ignoreDown`)
or throw; finally apply ups and re-read the current version. -/
def apply (e : Engine) : EvoM Unit :=
  bindE (hasSchema e) fun hs =>
  bindE (if !hs then createSchema e else pureE ()) fun _ =>
  bindE (getCurrent e) fun _ =>
  bindE
    (if hs then
      bindE (hasDown e) fun hd =>
      if hd then
        if e.allowDown then applyDown e
        else if e.ignoreDown then pureE ()
        else throwE "Database has down migrations. For development use `allowDown` option to apply them. NEVER USE FOR PRODUCTION!"
      else pureE ()
     else pureE ()) fun _ =>
  bindE (applyUp e) fun _ =>
  bindE (getCurrent e) fun _ =>
  pureE ()

end Evolutions

/-! ## Derived specification vocabulary and concrete fixtures -/

/-- The invariant of the loader (§3 of the spec, `version = index + 1`),
assumed where a claim speaks about desired sequences produced by it. -/
def versionsOk (l : List LoadedEvolution) : Prop :=
  ∀ (i : Nat) (h : i < l.length), (l.get ⟨i, h⟩).version = i + 1

/-- Committed effect of one successfully applied up script: its ups land
in the journal and its record is inserted. -/
def dbApplyScript (d : DbState) (evo : LoadedEvolution) : DbState :=
  { d with records := d.records ++ [evo], journal := d.journal ++ evo.ups }

/-- Committed effect of a list of successfully applied up scripts. -/
def dbAfterScripts (d : DbState) (l : List LoadedEvolution) : DbState :=
  l.foldl dbApplyScript d

/-- The operation trace of one successfully applied up script: one
transaction wrapping its ups and its record insert. -/
def upSeg (evo : LoadedEvolution) : List Op :=
  Op.beginTx :: (evo.ups.map Op.stmt ++ [Op.insertRec evo.version, Op.commitTx])

/-- Pure value computed by `hasDown` on a database state. -/
def hasDownB (e : Engine) (d : DbState) : Bool :=
  if d.schemaExists = false then false
  else
    match maxRecord d.records with
    | none => false
    | some cur =>
      if cur.version > e.evolutions.length then false
      else decide ((jsIndex e.evolutions ((cur.version : Int) - 1)).map
        LoadedEvolution.checksum ≠ some cur.checksum)

/-- The current version in a database state (0 when no record exists). -/
def currentVersionOf (d : DbState) : Nat :=
  match maxRecord d.records with
  | some c => c.version
  | none => 0

/-- What claim C8 asserts after a run of `apply`: drift detection is
clean, and a second `apply` succeeds, leaves the state exactly as it
was, and issues only the bookkeeping reads (no `BEGIN`, no statement
execution, no insert, no delete). -/
def applyIdempotent (e : Engine) (s : ClientState) : Prop :=
  (Evolutions.hasDown e (Evolutions.apply e s).2.1).1 = Except.ok false ∧
  Evolutions.apply e (Evolutions.apply e s).2.1 =
    (Except.ok (), (Evolutions.apply e s).2.1,
     [Op.catalogRead, Op.selectCurrent, Op.catalogRead, Op.selectCurrent,
      Op.selectCurrent, Op.selectCurrent])

/-- Failure oracle under which every statement succeeds. -/
def noFailOracle : String → Bool := fun _ => false

/-- Convenience constructor for a client state with an empty journal, no
open transaction. -/
def mkClientState (schemaE : Bool) (recs : List LoadedEvolution)
    (oracle : String → Bool) : ClientState :=
  ⟨⟨schemaE, recs, []⟩, none, oracle⟩

/-- Fixture: applied records 1 and 2 (checksums c1, c2). -/
def fixRec1 : LoadedEvolution := ⟨1, "c1", ["u1;"], none⟩

/-- Fixture: second applied record. -/
def fixRec2 : LoadedEvolution := ⟨2, "c2", ["u2;"], none⟩

/-- Fixture: record 3 as recorded in the database, with downs and the
old checksum. -/
def fixRec3old : LoadedEvolution := ⟨3, "c3old", ["u3old;"], some ["d3a;", "d3b;"]⟩

/-- Fixture: the changed desired script 3. -/
def fixEvo3new : LoadedEvolution := ⟨3, "c3new", ["u3new;"], none⟩

/-- Fixture engine for the drift-repair scenario of claim C1:
desired scripts 1–3 where script 3's checksum changed, `allowDown`. -/
def fixEngineRepair : Engine :=
  ⟨[⟨1, "c1", ["u1;"], none⟩, ⟨2, "c2", ["u2;"], none⟩, fixEvo3new], true, false,
   "public"⟩

/-- Fixture engine: same desired scripts, neither down flag set. -/
def fixEngineStrict : Engine :=
  ⟨[⟨1, "c1", ["u1;"], none⟩, ⟨2, "c2", ["u2;"], none⟩, fixEvo3new], false, false,
   "public"⟩

/-- Fixture state for the drift scenario: database at version 3 with the
old script 3 recorded. -/
def fixStateDrift : ClientState :=
  mkClientState true [fixRec1, fixRec2, fixRec3old] noFailOracle

/-- Fixture engine for `applyUp` runs: two fresh scripts. -/
def fixEngineTwo : Engine :=
  ⟨[⟨1, "a1", ["p1;"], none⟩, ⟨2, "a2", ["p2a;", "p2b;"], none⟩], false, false,
   "public"⟩

/-- Failure oracle that fails exactly the statement of the second
script's second up. -/
def failP2b : String → Bool := fun q => q == "p2b;"

/-- A database state whose top record (if any) is consistent with the
desired sequence: no record, a record from a version beyond the desired
sequence, or a checksum match at the current version.  Exactly the
states on which `hasDown` reports no drift (given the table exists). -/
def noDrift (e : Engine) (d : DbState) : Prop :=
  maxRecord d.records = none ∨
  ∃ cur, maxRecord d.records = some cur ∧
    (e.evolutions.length < cur.version ∨
     ∃ exp, jsIndex e.evolutions ((cur.version : Int) - 1) = some exp ∧
       cur.checksum = exp.checksum)

/-- Fixture engine with `ignoreDown` set and one desired script. -/
def fixEngineIgnore : Engine := ⟨[⟨1, "cA", ["u1;"], none⟩], false, true, "public"⟩

/-- Fixture state at version 1 whose recorded checksum differs from the
desired script 1. -/
def fixStateIgnore : ClientState :=
  mkClientState true [⟨1, "cB", ["u1;"], none⟩] noFailOracle

/-! ## Helper lemmas: strings and lists -/

theorem str_length_data (s : String) : s.length = s.data.length := rfl

theorem str_data_append (a b : String) : (a ++ b).data = a.data ++ b.data := rfl

theorem str_eq_iff_data (a b : String) : a = b ↔ a.data = b.data := by
  constructor
  · intro h; rw [h]
  · intro h; cases a; cases b; simp only at h; rw [h]

theorem str_ne_empty_of_data {s : String} (h : s.data ≠ []) : s ≠ "" := by
  intro he; exact h (by rw [he])

theorem mem_dropWhile_of_not {p : α → Bool} {c : α} :
    ∀ {l : List α}, c ∈ l → p c = false → c ∈ l.dropWhile p := by
  intro l hc hp
  induction l with
  | nil => cases hc
  | cons x xs ih =>
    by_cases hx : p x = true
    · rw [List.dropWhile_cons_of_pos hx]
      rcases List.mem_cons.mp hc with h | h
      · subst h; rw [hx] at hp; cases hp
      · exact ih h
    · rw [List.dropWhile_cons_of_neg hx]
      exact hc

theorem dropWhile_head_not {p : α → Bool} :
    ∀ {l : List α} {c : α} {cs : List α}, l.dropWhile p = c :: cs → p c = false := by
  intro l
  induction l with
  | nil => intro c cs h; simp [List.dropWhile] at h
  | cons x xs ih =>
    intro c cs h
    by_cases hx : p x = true
    · rw [List.dropWhile_cons_of_pos hx] at h
      exact ih h
    · rw [List.dropWhile_cons_of_neg hx] at h
      cases h
      simpa using hx

theorem str_length_pos_iff (s : String) : 0 < s.length ↔ s.data ≠ [] := by
  rw [str_length_data]
  exact List.length_pos

theorem jsTrimChars_head_not_ws {l : List Char} {c : Char} {cs : List Char}
    (h : jsTrimChars l = c :: cs) : isJsWhitespace c = false :=
  dropWhile_head_not h

theorem jsTrimChars_ne_nil {l : List Char} {c : Char} (hc : c ∈ l)
    (hw : isJsWhitespace c = false) : jsTrimChars l ≠ [] := by
  have h1 : c ∈ trimTrailChars l := by
    unfold trimTrailChars
    exact List.mem_reverse.mpr
      (mem_dropWhile_of_not (List.mem_reverse.mpr hc) hw)
  have h2 : c ∈ jsTrimChars l := mem_dropWhile_of_not h1 hw
  exact List.ne_nil_of_mem h2

theorem trimTrail_append_ws {l : List Char} {c : Char} (hw : isJsWhitespace c = true) :
    trimTrailChars (l ++ [c]) = trimTrailChars l := by
  unfold trimTrailChars
  rw [List.reverse_append]
  simp [List.dropWhile_cons_of_pos hw]

theorem jsTrim_append_newline (s : String) : jsTrim (s ++ "\n") = jsTrim s := by
  unfold jsTrim
  rw [str_eq_iff_data]
  simp only
  unfold jsTrimChars
  rw [str_data_append]
  have : ("\n" : String).data = ['\n'] := rfl
  rw [this, trimTrail_append_ws (by decide)]

theorem jsStartsWith_len_pos {t : String} (h : jsStartsWith t "--" = true) :
    t.length ≠ 0 := by
  unfold jsStartsWith at h
  rw [List.isPrefixOf_iff_prefix] at h
  rcases h with ⟨tail, htail⟩
  rw [str_length_data]
  have : ("--" : String).data = ['-', '-'] := rfl
  rw [this] at htail
  rw [← htail]
  simp

theorem stepLine_skip (st : ParseState) (line : String)
    (h : (jsTrim line).length = 0 ∨
      (jsStartsWith (jsTrim line) "--" = true ∧ jsTrim line ≠ "-- DOWN --" ∧
       jsTrim line ≠ "-- BLOCK --" ∧
       ¬(st.inBlock = true ∧ jsTrim line = "-- BLOCK END --"))) :
    stepLine st line =
      (if 0 < st.statement.length
       then { st with statement := st.statement ++ "\n" } else st) := by
  unfold stepLine
  rcases h with hb | ⟨hsw, hd, hbl, hbe⟩
  · simp [hb]
  · have h0 : ((jsTrim line).length == 0) = false := by
      simp [jsStartsWith_len_pos hsw]
    have h1 : (jsTrim line == "-- DOWN --") = false := by
      simp [hd]
    have h2 : (jsTrim line == "-- BLOCK --") = false := by
      simp [hbl]
    simp only [h0, h1, h2, Bool.false_eq_true, if_false]
    by_cases hib : st.inBlock = true
    · have h3 : jsTrim line ≠ "-- BLOCK END --" := fun he => hbe ⟨hib, he⟩
      have h4 : (jsTrim line == "-- BLOCK END --") = false := by simp [h3]
      split <;> simp_all [h4, hsw]
    · have hib' : st.inBlock = false := by
        cases hst : st.inBlock
        · rfl
        · exact absurd hst hib
      split <;> simp_all [hsw, hib']

theorem str_empty_iff_not_len_pos (s : String) : s = "" ↔ ¬ 0 < s.length := by
  rw [str_length_pos_iff, str_eq_iff_data]
  have : ("" : String).data = [] := rfl
  rw [this]
  exact ⟨fun h hne => hne h, fun h => not_not.mp h⟩

/-- Claim C4 (amended).  A line whose trimmed form is empty, and a
comment-only line (starting with `--` and not acting as a directive in
the current state), never appear in either output list and never change
the target lists; they leave the statement accumulation buffer unchanged
when it is empty — so parsing a stream equals parsing the stream with
such lines deleted whenever they occur at a point where the buffer is
empty — but when the buffer is non-empty each such line appends one
newline character to it (the unconditional newline join at
`src/files.ts` lines 38–40), so deleting them does not preserve the
parse in general. -/
theorem C4_blank_comment_lines (st : ParseState) (line : String)
    (h : (jsTrim line).length = 0 ∨
      (jsStartsWith (jsTrim line) "--" = true ∧ jsTrim line ≠ "-- DOWN --" ∧
       jsTrim line ≠ "-- BLOCK --" ∧
       ¬(st.inBlock = true ∧ jsTrim line = "-- BLOCK END --"))) :
    stepLine st line =
      (if st.statement = "" then st
       else { st with statement := st.statement ++ "\n" }) ∧
    (stepLine st line).ups = st.ups ∧
    (stepLine st line).downs = st.downs ∧
    (st.statement = "" →
      ∀ rest : List String,
        List.foldl stepLine st (line :: rest) = List.foldl stepLine st rest) := by
  have hrun := stepLine_skip st line h
  have hiff := str_empty_iff_not_len_pos st.statement
  have hmain : stepLine st line =
      (if st.statement = "" then st
       else { st with statement := st.statement ++ "\n" }) := by
    rw [hrun]
    by_cases he : st.statement = ""
    · rw [if_pos he, if_neg (hiff.mp he)]
    · rw [if_neg he, if_pos (by
        by_cases hp : 0 < st.statement.length
        · exact hp
        · exact absurd (hiff.mpr hp) he)]
  refine ⟨hmain, ?_, ?_, ?_⟩
  · rw [hmain]; split <;> rfl
  · rw [hmain]; split <;> rfl
  · intro he rest
    rw [List.foldl_cons, hmain, if_pos he]

/-- Claim C4 as frozen is false on the code: a blank line (and likewise
a comment-only line) processed while the statement buffer is non-empty
appends a newline to the buffer, so parsing is not equivalent to parsing
with blank and comment-only lines deleted. -/
theorem C4_counterexample :
    parseSqlFile ["a", "", "b;"] ≠ parseSqlFile ["a", "b;"] ∧
    parseSqlFile ["a", "-- note", "b;"] ≠ parseSqlFile ["a", "b;"] ∧
    (stepLine ⟨[], [], false, "a", false⟩ "").statement ≠ "a" := by
  refine ⟨?_, ?_, ?_⟩ <;> decide

theorem pushCur_set (st : ParseState) (x y : String) (c : Bool) :
    pushCur { st with statement := y, inBlock := c } x =
      { pushCur st x with statement := y, inBlock := c } := by
  unfold pushCur
  cases h : st.curIsDowns <;> simp [h]

theorem foldl_inBlock (region : List String) :
    ∀ st : ParseState, st.inBlock = true →
    (∀ l ∈ region, jsTrim l ≠ "-- DOWN --" ∧ jsTrim l ≠ "-- BLOCK END --") →
    List.foldl stepLine st region = { st with statement := blockAcc st.statement region } := by
  induction region with
  | nil => intro st _ _; rfl
  | cons l ls ih =>
    intro st hib hreg
    obtain ⟨u, d, ci, stm, ib⟩ := st
    simp only at hib
    subst hib
    have hd := (hreg l (List.mem_cons_self l ls)).1
    have hbe := (hreg l (List.mem_cons_self l ls)).2
    have hstep : stepLine ⟨u, d, ci, stm, true⟩ l =
        ⟨u, d, ci,
          (fun a =>
            let a1 := if a.length > 0 then a ++ "\n" else a
            let t := jsTrim l
            if t.length == 0 then a1
            else if jsStartsWith t "--" then a1
            else a1 ++ t) stm, true⟩ := by
      unfold stepLine
      have h1 : (jsTrim l == "-- DOWN --") = false := by simp [hd]
      have h2 : (jsTrim l == "-- BLOCK END --") = false := by simp [hbe]
      by_cases h0 : (jsTrim l).length = 0
      · by_cases hlen : 0 < stm.length <;> simp [h0, hlen]
      · have h0' : ((jsTrim l).length == 0) = false := by simp [h0]
        by_cases hbl : jsTrim l = "-- BLOCK --"
        · have e1 : ¬("-- BLOCK --" : String).length = 0 := by decide
          have e2 : jsStartsWith "-- BLOCK --" "--" = true := by decide
          by_cases hlen : 0 < stm.length <;>
            simp [h0', h1, h2, hbl, hlen, e1, e2]
        · have hbl' : (jsTrim l == "-- BLOCK --") = false := by simp [hbl]
          cases hsw : jsStartsWith (jsTrim l) "--" <;>
            by_cases hlen : 0 < stm.length <;>
              simp [h0', h1, h2, hbl', hsw, hlen]
    rw [List.foldl_cons, hstep]
    rw [ih _ (by simp) (fun x hx => hreg x (List.mem_cons_of_mem l hx))]
    rfl

theorem blockAcc_cons (a : String) (l : String) (ls : List String) :
    blockAcc a (l :: ls) =
      blockAcc
        (let a1 := if a.length > 0 then a ++ "\n" else a
         let t := jsTrim l
         if t.length == 0 then a1
         else if jsStartsWith t "--" then a1
         else a1 ++ t) ls := rfl

theorem blockAcc_keeps (ls : List String) :
    ∀ a : String, (∃ c ∈ a.data, isJsWhitespace c = false) →
    ∃ c ∈ (blockAcc a ls).data, isJsWhitespace c = false := by
  induction ls with
  | nil => intro a h; exact h
  | cons l ls ih =>
    intro a h
    rcases h with ⟨c, hc, hw⟩
    rw [blockAcc_cons]
    apply ih
    have hca1 : c ∈ (if a.length > 0 then a ++ "\n" else a).data := by
      split
      · rw [str_data_append]; exact List.mem_append.mpr (Or.inl hc)
      · exact hc
    refine ⟨c, ?_, hw⟩
    simp only
    split
    · exact hca1
    · split
      · exact hca1
      · rw [str_data_append]; exact List.mem_append.mpr (Or.inl hca1)

theorem blockAcc_content (ls : List String) :
    ∀ a : String,
    (∃ l ∈ ls, (jsTrim l).length ≠ 0 ∧ jsStartsWith (jsTrim l) "--" = false) →
    ∃ c ∈ (blockAcc a ls).data, isJsWhitespace c = false := by
  induction ls with
  | nil => intro a h; rcases h with ⟨l, hl, _⟩; cases hl
  | cons l ls ih =>
    intro a h
    rcases h with ⟨l', hl', hlen, hsw⟩
    rcases List.mem_cons.mp hl' with rfl | hl's
    · rw [blockAcc_cons]
      apply blockAcc_keeps
      have hdata : (jsTrim l').data ≠ [] := by
        intro hnil
        apply hlen
        rw [str_length_data, hnil]
        rfl
      rcases hd : (jsTrim l').data with _ | ⟨c, cs⟩
      · exact absurd hd hdata
      · have hw : isJsWhitespace c = false := by
          have : jsTrimChars l'.data = c :: cs := by
            have : (jsTrim l').data = jsTrimChars l'.data := rfl
            rw [← this, hd]
          exact jsTrimChars_head_not_ws this
        refine ⟨c, ?_, hw⟩
        simp only
        have h0 : ((jsTrim l').length == 0) = false := by simp [hlen]
        rw [if_neg (by simp [h0, hlen]), if_neg (by simp [hsw])]
        rw [str_data_append, hd]
        exact List.mem_append.mpr (Or.inr (List.mem_cons_self c cs))
    · rw [blockAcc_cons]
      exact ih _ ⟨l', hl's, hlen, hsw⟩

/-- Claim C5.  A `-- BLOCK --` line followed by a region of lines
containing no `-- DOWN --` and no `-- BLOCK END --` directive and at
least one content line, closed by a `-- BLOCK END --` line, pushes the
accumulated region as exactly one entry onto the current target list
(regardless of semicolons inside the region: no intermediate push
occurs, the target lists change only by the single appended entry), with
the buffer cleared and block mode ended. -/
theorem C5_block_region_single_entry (st : ParseState) (region : List String)
    (hstmt : st.statement = "")
    (hreg : ∀ l ∈ region, jsTrim l ≠ "-- DOWN --" ∧ jsTrim l ≠ "-- BLOCK END --")
    (hcontent : ∃ l ∈ region,
      (jsTrim l).length ≠ 0 ∧ jsStartsWith (jsTrim l) "--" = false) :
    List.foldl stepLine st (("-- BLOCK --" :: region) ++ ["-- BLOCK END --"]) =
      { pushCur st (jsTrim (blockAcc "" region)) with
          statement := "", inBlock := false } := by
  obtain ⟨u, d, ci, stm, ib⟩ := st
  simp only at hstmt
  subst hstmt
  have hA := blockAcc_content region "" hcontent
  rcases hA with ⟨c, hc, hw⟩
  have hAlen : 0 < (blockAcc "" region).length := by
    rw [str_length_pos_iff]
    exact List.ne_nil_of_mem hc
  have hAtrim : 0 < (jsTrim (blockAcc "" region)).length := by
    rw [str_length_pos_iff]
    exact jsTrimChars_ne_nil hc hw
  have step1 : stepLine ⟨u, d, ci, "", ib⟩ "-- BLOCK --" = ⟨u, d, ci, "", true⟩ := by
    unfold stepLine
    have t1 : jsTrim "-- BLOCK --" = "-- BLOCK --" := by decide
    rw [t1]
    have e0 : ¬ 0 < ("" : String).length := by decide
    have e1 : (("-- BLOCK --" : String).length == 0) = false := by decide
    have e2 : (("-- BLOCK --" : String) == "-- DOWN --") = false := by decide
    have e3 : (("-- BLOCK --" : String) == "-- BLOCK --") = true := by decide
    simp [e0, e1, e2, e3]
  have step2 := foldl_inBlock region ⟨u, d, ci, "", true⟩ rfl hreg
  have step3 : stepLine ⟨u, d, ci, blockAcc "" region, true⟩ "-- BLOCK END --" =
      { pushCur (⟨u, d, ci, "", ib⟩ : ParseState) (jsTrim (blockAcc "" region)) with
          statement := "", inBlock := false } := by
    unfold stepLine
    have t1 : jsTrim "-- BLOCK END --" = "-- BLOCK END --" := by decide
    rw [t1]
    have e1 : (("-- BLOCK END --" : String).length == 0) = false := by decide
    have e2 : (("-- BLOCK END --" : String) == "-- DOWN --") = false := by decide
    have e3 : (("-- BLOCK END --" : String) == "-- BLOCK --") = false := by decide
    have e4 : (("-- BLOCK END --" : String) == "-- BLOCK END --") = true := by decide
    simp only [hAlen, if_pos, e1, e2, e3, e4, Bool.false_eq_true, if_false,
      Bool.and_true, jsTrim_append_newline]
    rw [if_pos hAtrim]
    have hpc := pushCur_set (⟨u, d, ci, "", ib⟩ : ParseState)
      (jsTrim (blockAcc "" region)) (blockAcc "" region ++ "\n") true
    simp only at hpc ⊢
    rw [hpc]
  simp only [List.foldl_append, List.foldl_cons, List.foldl_nil]
  rw [step1, step2]
  simp only
  rw [step3]

/-- Witness for C5 at a concrete block region with internal
semicolons. -/
theorem C5_witness :
    (initialParseState.statement = "") ∧
    (∀ l ∈ ["f(a;b);", "g;"], jsTrim l ≠ "-- DOWN --" ∧ jsTrim l ≠ "-- BLOCK END --") ∧
    (∃ l ∈ ["f(a;b);", "g;"],
      (jsTrim l).length ≠ 0 ∧ jsStartsWith (jsTrim l) "--" = false) ∧
    List.foldl stepLine initialParseState
        (("-- BLOCK --" :: ["f(a;b);", "g;"]) ++ ["-- BLOCK END --"]) =
      { pushCur initialParseState (jsTrim (blockAcc "" ["f(a;b);", "g;"])) with
          statement := "", inBlock := false } :=
  ⟨rfl, by decide, by decide,
    C5_block_region_single_entry initialParseState ["f(a;b);", "g;"] rfl
      (by decide) (by decide)⟩

set_option maxRecDepth 100000 in
/-- Claim C6 (amended).  The checksum is invariant under per-statement
edge whitespace and under insertion of entries that trim to the empty
string; empty input and a single blank entry both hash to the SHA-1 of
the empty string; order is observable (witnessed concretely).  The
frozen claim's universal "changes when order or edge-stripped content
changes" is dropped: the semicolon-space join is not injective, see the
counterexample. -/
theorem C6_checksum_properties :
    (∀ l l' : List String, l.map jsTrim = l'.map jsTrim →
        generateChecksum l = generateChecksum l') ∧
    (∀ (l1 l2 : List String) (b : String), jsTrim b = "" →
        generateChecksum (l1 ++ b :: l2) = generateChecksum (l1 ++ l2)) ∧
    generateChecksum [] = "da39a3ee5e6b4b0d3255bfef95601890afd80709" ∧
    generateChecksum [""] = "da39a3ee5e6b4b0d3255bfef95601890afd80709" ∧
    generateChecksum ["a", "b"] ≠ generateChecksum ["b", "a"] := by
  refine ⟨?_, ?_, ?_, ?_, ?_⟩
  · intro l l' h
    unfold generateChecksum
    rw [h]
  · intro l1 l2 b hb
    unfold generateChecksum
    rw [List.map_append, List.map_append, List.map_cons, hb]
    rw [List.filter_append, List.filter_append, List.filter_cons]
    simp
  · decide
  · decide
  · decide

set_option maxRecDepth 100000 in
/-- Claim C6 as frozen is false on the code: the canonical join is
ambiguous, so the checksum can fail to change although the
edge-whitespace-stripped content changed. -/
theorem C6_counterexample :
    generateChecksum ["a; b"] = generateChecksum ["a", "b"] ∧
    ["a; b"].map jsTrim ≠ ["a", "b"].map jsTrim := by
  constructor <;> decide

set_option maxRecDepth 100000 in
/-- Witness for C6 at a concrete whitespace variation. -/
theorem C6_witness :
    ([" x;"].map jsTrim = ["x;  "].map jsTrim) ∧
    generateChecksum [" x;"] = generateChecksum ["x;  "] :=
  ⟨by decide, C6_checksum_properties.1 [" x;"] ["x;  "] (by decide)⟩

/-! ## Engine run lemmas -/

theorem hasDown_run (e : Engine) (s : ClientState) :
    Evolutions.hasDown e s =
      (Except.ok (hasDownB e s.db), s,
       if s.db.schemaExists then [Op.catalogRead, Op.selectCurrent]
       else [Op.catalogRead]) := by
  unfold Evolutions.hasDown Evolutions.hasSchema Evolutions.getCurrent
  unfold hasDownB bindE pureE
  cases hse : s.db.schemaExists
  · simp [hse]
  · simp only [hse, Bool.not_true, Bool.false_eq_true, if_false, if_true]
    cases hmr : maxRecord s.db.records
    · simp
    · simp only
      split <;> simp

/-- Claim C10.  The reading operations `hasSchema`, `getCurrent` and
`hasDown` issue only catalog and SELECT reads: they leave the client
state (database, snapshot) exactly unchanged and their traces contain no
transaction control, no statement execution, no insert and no
delete. -/
theorem C10_drift_detection_reads_only (e : Engine) (s : ClientState) :
    Evolutions.hasSchema e s = (Except.ok s.db.schemaExists, s, [Op.catalogRead]) ∧
    Evolutions.getCurrent e s =
      (Except.ok (maxRecord s.db.records), s, [Op.selectCurrent]) ∧
    (Evolutions.hasDown e s).2.1 = s ∧
    ∀ op ∈ (Evolutions.hasDown e s).2.2,
      op = Op.catalogRead ∨ op = Op.selectCurrent := by
  refine ⟨rfl, rfl, ?_, ?_⟩
  · rw [hasDown_run]
  · intro op hop
    rw [hasDown_run] at hop
    simp only at hop
    rcases hse : s.db.schemaExists <;> rw [hse] at hop <;> simp at hop
    · exact Or.inl hop
    · tauto

/-- Claim C3.  `hasDown` returns false when the metadata table does not
exist or holds no rows, and whenever the current record's version
exceeds the length of the desired sequence; otherwise it returns true
iff the current record's checksum differs from the checksum of the
desired entry at (1-based) position `current.version` (the JS read
`evolutions[current.version - 1]?.checksum`, `undefined` out of
range). -/
theorem C3_hasDown_cases (e : Engine) (s : ClientState) :
    ((s.db.schemaExists = false ∨ s.db.records = []) →
      (Evolutions.hasDown e s).1 = Except.ok false) ∧
    (∀ cur, maxRecord s.db.records = some cur →
      e.evolutions.length < cur.version →
      (Evolutions.hasDown e s).1 = Except.ok false) ∧
    (∀ cur, s.db.schemaExists = true → maxRecord s.db.records = some cur →
      cur.version ≤ e.evolutions.length →
      ((Evolutions.hasDown e s).1 = Except.ok true ↔
        (jsIndex e.evolutions ((cur.version : Int) - 1)).map
          LoadedEvolution.checksum ≠ some cur.checksum)) := by
  rw [hasDown_run]
  refine ⟨?_, ?_, ?_⟩
  · rintro (hse | hrec)
    · simp [hasDownB, hse]
    · simp only [hasDownB, hrec, maxRecord]
      split <;> rfl
  · intro cur hcur hlt
    unfold hasDownB
    split
    · rfl
    · rw [hcur]
      simp only
      rw [if_pos hlt]
  · intro cur hse hcur hle
    unfold hasDownB
    rw [if_neg (by simp [hse]), hcur]
    simp only
    rw [if_neg (by omega)]
    simp [decide_eq_true_iff]

/-- Witness for C3 at concrete states: missing table, empty table, a
database ahead of the desired sequence, and a mismatching checksum. -/
theorem C3_witness :
    (mkClientState false [] noFailOracle).db.schemaExists = false ∧
    (Evolutions.hasDown fixEngineStrict (mkClientState false [] noFailOracle)).1 =
      Except.ok false ∧
    maxRecord (mkClientState true [⟨9, "x", [], none⟩] noFailOracle).db.records =
      some ⟨9, "x", [], none⟩ ∧
    fixEngineStrict.evolutions.length < 9 ∧
    (Evolutions.hasDown fixEngineStrict
      (mkClientState true [⟨9, "x", [], none⟩] noFailOracle)).1 = Except.ok false :=
  ⟨rfl,
   (C3_hasDown_cases fixEngineStrict (mkClientState false [] noFailOracle)).1
     (Or.inl rfl),
   by decide, by decide,
   (C3_hasDown_cases fixEngineStrict
     (mkClientState true [⟨9, "x", [], none⟩] noFailOracle)).2.1
     ⟨9, "x", [], none⟩ (by decide) (by decide)⟩

/-- Claim C7.  Destructive operations require explicit opt-in, for every
engine, target version and client state: `downTo` without `allowDown`
throws before issuing any database operation (empty trace, state exactly
unchanged, whatever the database holds); and `apply` with neither
`allowDown` nor `ignoreDown` set, on a state with the metadata table
present where drift is detected, throws having issued only the four
reads of current state (no statement, no transaction, no insert, no
delete), state exactly unchanged. -/
theorem C7_optin_required (e : Engine) (v : Nat) (s : ClientState) :
    (e.allowDown = false →
      Evolutions.downTo e v s =
        (Except.error "You must enable allowDown option to apply down migrations. NEVER USE FOR PRODUCTION!",
         s, [])) ∧
    (e.allowDown = false → e.ignoreDown = false →
      s.db.schemaExists = true →
      (Evolutions.hasDown e s).1 = Except.ok true →
      Evolutions.apply e s =
        (Except.error "Database has down migrations. For development use `allowDown` option to apply them. NEVER USE FOR PRODUCTION!",
         s, [Op.catalogRead, Op.selectCurrent, Op.catalogRead, Op.selectCurrent])) := by
  constructor
  · intro hna
    unfold Evolutions.downTo
    rw [hna]
    rfl
  · intro hna hni hse hd
    have hdB : hasDownB e s.db = true := by
      rw [hasDown_run] at hd
      simpa using hd
    unfold Evolutions.apply
    simp [Evolutions.hasSchema, Evolutions.getCurrent, bindE, pureE, throwE,
      hasDown_run, hse, hdB, hna, hni]

/-- Witness for C7: the `downTo` half at a clean in-sync state, the
`apply` half at the concrete drift scenario. -/
theorem C7_witness :
    Evolutions.downTo fixEngineStrict 1 (mkClientState true [] noFailOracle) =
      (Except.error "You must enable allowDown option to apply down migrations. NEVER USE FOR PRODUCTION!",
       mkClientState true [] noFailOracle, []) ∧
    Evolutions.apply fixEngineStrict fixStateDrift =
      (Except.error "Database has down migrations. For development use `allowDown` option to apply them. NEVER USE FOR PRODUCTION!",
       fixStateDrift, [Op.catalogRead, Op.selectCurrent, Op.catalogRead,
                       Op.selectCurrent]) :=
  ⟨(C7_optin_required fixEngineStrict 1 (mkClientState true [] noFailOracle)).1 rfl,
   (C7_optin_required fixEngineStrict 3 fixStateDrift).2 rfl rfl rfl rfl⟩

theorem applySingle_ok : ∀ (qs : List String) (db : DbState) (snap : Option DbState)
    (fl : String → Bool),
    (∀ q ∈ qs, fl q = false) →
    Evolutions.applySingle qs ⟨db, snap, fl⟩ =
      (Except.ok (), ⟨{ db with journal := db.journal ++ qs }, snap, fl⟩,
       qs.map Op.stmt) := by
  intro qs
  induction qs with
  | nil =>
    intro db snap fl _
    simp [Evolutions.applySingle, pureE]
  | cons q rest ih =>
    intro db snap fl h
    have hq : fl q = false := h q (List.mem_cons_self q rest)
    unfold Evolutions.applySingle bindE querySql
    simp only [hq, Bool.false_eq_true, if_false]
    rw [ih { db with journal := db.journal ++ [q] } snap fl
      (fun r hr => h r (List.mem_cons_of_mem q hr))]
    simp

theorem applySingle_fail : ∀ (pre : List String) (q : String) (post : List String)
    (db : DbState) (snap : Option DbState) (fl : String → Bool),
    (∀ r ∈ pre, fl r = false) → fl q = true →
    Evolutions.applySingle (pre ++ q :: post) ⟨db, snap, fl⟩ =
      (Except.error ("statement failed: " ++ q),
       ⟨{ db with journal := db.journal ++ pre }, snap, fl⟩,
       (pre ++ [q]).map Op.stmt) := by
  intro pre
  induction pre with
  | nil =>
    intro q post db snap fl _ hq
    rw [List.nil_append]
    unfold Evolutions.applySingle bindE querySql
    simp [hq]
  | cons r rest ih =>
    intro q post db snap fl h hq
    have hr : fl r = false := h r (List.mem_cons_self r rest)
    rw [List.cons_append]
    unfold Evolutions.applySingle bindE querySql
    simp only [hr, Bool.false_eq_true, if_false]
    rw [ih q post { db with journal := db.journal ++ [r] } snap fl
      (fun x hx => h x (List.mem_cons_of_mem r hx)) hq]
    simp

/-- Claim C9.  `downgrade(record)` runs inside one transaction: with
recorded downs present it executes them in order, deletes the version's
row and commits; with downs absent it deletes the row without executing
any rollback SQL; on a failing down statement the transaction is rolled
back — the database (rows and journal) is exactly as before, so the row
still exists and no partial down effects remain — and the error
propagates. -/
theorem C9_downgrade_transactional (e : Engine) (cur : LoadedEvolution)
    (db : DbState) (fl : String → Bool) :
    (∀ ds, cur.downs = some ds → (∀ q ∈ ds, fl q = false) →
      Evolutions.downgrade e cur ⟨db, none, fl⟩ =
        (Except.ok (),
         ⟨{ db with
              records := db.records.filter (fun r => r.version ≠ cur.version)
              journal := db.journal ++ ds }, none, fl⟩,
         Op.beginTx :: (ds.map Op.stmt ++ [Op.deleteRec cur.version, Op.commitTx]))) ∧
    (cur.downs = none →
      Evolutions.downgrade e cur ⟨db, none, fl⟩ =
        (Except.ok (),
         ⟨{ db with records := db.records.filter (fun r => r.version ≠ cur.version) },
          none, fl⟩,
         [Op.beginTx, Op.deleteRec cur.version, Op.commitTx])) ∧
    (∀ ds pre q post, cur.downs = some ds → ds = pre ++ q :: post →
      (∀ r ∈ pre, fl r = false) → fl q = true →
      Evolutions.downgrade e cur ⟨db, none, fl⟩ =
        (Except.error ("statement failed: " ++ q), ⟨db, none, fl⟩,
         Op.beginTx :: ((pre ++ [q]).map Op.stmt ++ [Op.rollbackTx]))) := by
  refine ⟨?_, ?_, ?_⟩
  · intro ds hds hok
    unfold Evolutions.downgrade bindE tryCatchE queryBegin queryCommit
    unfold Evolutions.evolutionDropped
    rw [hds]
    simp only
    rw [applySingle_ok ds db (some db) fl hok]
    simp
  · intro hds
    unfold Evolutions.downgrade bindE tryCatchE queryBegin queryCommit pureE
    unfold Evolutions.evolutionDropped
    rw [hds]
    simp
  · intro ds pre q post hds hsplit hpre hq
    unfold Evolutions.downgrade bindE tryCatchE queryBegin queryRollback throwE
    rw [hds, hsplit]
    simp only
    rw [applySingle_fail pre q post db (some db) fl hpre hq]
    simp

/-- Witness for C9: downgrading record 3 with its two recorded downs
succeeds. -/
theorem C9_witness :
    fixRec3old.downs = some ["d3a;", "d3b;"] ∧
    (∀ q ∈ ["d3a;", "d3b;"], noFailOracle q = false) ∧
    (Evolutions.downgrade fixEngineRepair fixRec3old
      ⟨⟨true, [fixRec1, fixRec2, fixRec3old], []⟩, none, noFailOracle⟩).1 =
      Except.ok () :=
  ⟨rfl, by decide, by
    rw [(C9_downgrade_transactional fixEngineRepair fixRec3old
      ⟨true, [fixRec1, fixRec2, fixRec3old], []⟩ noFailOracle).1
      ["d3a;", "d3b;"] rfl (by decide)]⟩

theorem exists_first_fail {fl : String → Bool} :
    ∀ l : List String, ¬ (∀ q ∈ l, fl q = false) →
    ∃ pre q post, l = pre ++ q :: post ∧ (∀ r ∈ pre, fl r = false) ∧ fl q = true := by
  intro l
  induction l with
  | nil => intro h; exact absurd (by intro q hq; cases hq) h
  | cons x xs ih =>
    intro h
    cases hx : fl x
    · have : ¬ ∀ q ∈ xs, fl q = false := by
        intro hall
        apply h
        intro q hq
        rcases List.mem_cons.mp hq with rfl | hq'
        · exact hx
        · exact hall q hq'
      rcases ih this with ⟨pre, q, post, hsplit, hpre, hq⟩
      refine ⟨x :: pre, q, post, by rw [hsplit]; rfl, ?_, hq⟩
      intro r hr
      rcases List.mem_cons.mp hr with rfl | hr'
      · exact hx
      · exact hpre r hr'
    · exact ⟨[], x, xs, rfl, fun r hr => absurd hr (List.not_mem_nil r), hx⟩

theorem applyUpStep_ok (e : Engine) (evo : LoadedEvolution) (db : DbState)
    (fl : String → Bool)
    (hups : ∀ q ∈ evo.ups, fl q = false)
    (hdup : db.records.any (fun r => r.version == evo.version) = false) :
    Evolutions.applyUpStep e evo ⟨db, none, fl⟩ =
      (Except.ok (), ⟨dbApplyScript db evo, none, fl⟩, upSeg evo) := by
  unfold Evolutions.applyUpStep bindE tryCatchE queryBegin queryCommit
  unfold Evolutions.evolutionApplied
  simp only
  rw [applySingle_ok evo.ups db (some db) fl hups]
  simp [hdup, dbApplyScript, upSeg]

theorem applyUpStep_fail_stmt (e : Engine) (evo : LoadedEvolution) (db : DbState)
    (fl : String → Bool) (pre : List String) (q : String) (post : List String)
    (hsplit : evo.ups = pre ++ q :: post)
    (hpre : ∀ r ∈ pre, fl r = false) (hq : fl q = true) :
    Evolutions.applyUpStep e evo ⟨db, none, fl⟩ =
      (Except.error ("statement failed: " ++ q), ⟨db, none, fl⟩,
       Op.beginTx :: ((pre ++ [q]).map Op.stmt ++ [Op.rollbackTx])) := by
  unfold Evolutions.applyUpStep bindE tryCatchE queryBegin queryRollback throwE
  rw [hsplit]
  simp only
  rw [applySingle_fail pre q post db (some db) fl hpre hq]
  simp

theorem applyUpStep_fail_dup (e : Engine) (evo : LoadedEvolution) (db : DbState)
    (fl : String → Bool)
    (hups : ∀ q ∈ evo.ups, fl q = false)
    (hdup : db.records.any (fun r => r.version == evo.version) = true) :
    Evolutions.applyUpStep e evo ⟨db, none, fl⟩ =
      (Except.error "duplicate key value violates unique constraint", ⟨db, none, fl⟩,
       Op.beginTx :: (evo.ups.map Op.stmt ++ [Op.insertRec evo.version, Op.rollbackTx])) := by
  unfold Evolutions.applyUpStep bindE tryCatchE queryBegin queryRollback throwE
  unfold Evolutions.evolutionApplied
  simp only
  rw [applySingle_ok evo.ups db (some db) fl hups]
  simp [hdup]

theorem applyUpLoop_cons_ok (e : Engine) (evo : LoadedEvolution)
    (rest : List LoadedEvolution) (s s' : ClientState) (t1 : List Op)
    (h : Evolutions.applyUpStep e evo s = (Except.ok (), s', t1)) :
    Evolutions.applyUpLoop e (evo :: rest) s =
      ((Evolutions.applyUpLoop e rest s').1,
       (Evolutions.applyUpLoop e rest s').2.1,
       t1 ++ (Evolutions.applyUpLoop e rest s').2.2) := by
  conv_lhs => unfold Evolutions.applyUpLoop
  unfold bindE
  rw [h]

theorem applyUpLoop_cons_err (e : Engine) (evo : LoadedEvolution)
    (rest : List LoadedEvolution) (s s' : ClientState) (msg : String) (t1 : List Op)
    (h : Evolutions.applyUpStep e evo s = (Except.error msg, s', t1)) :
    Evolutions.applyUpLoop e (evo :: rest) s = (Except.error msg, s', t1) := by
  conv_lhs => unfold Evolutions.applyUpLoop
  unfold bindE
  rw [h]

theorem applyUpLoop_spec (e : Engine) :
    ∀ (l : List LoadedEvolution) (db : DbState) (fl : String → Bool),
    ∃ k, k ≤ l.length ∧
      (Evolutions.applyUpLoop e l ⟨db, none, fl⟩).2.1 =
        ⟨dbAfterScripts db (l.take k), none, fl⟩ ∧
      ((Evolutions.applyUpLoop e l ⟨db, none, fl⟩).1 = Except.ok () ∧ k = l.length ∧
          (Evolutions.applyUpLoop e l ⟨db, none, fl⟩).2.2 = (l.map upSeg).flatten
        ∨ ∃ msg evo rest failTail,
            (Evolutions.applyUpLoop e l ⟨db, none, fl⟩).1 = Except.error msg ∧
            l.drop k = evo :: rest ∧
            (Evolutions.applyUpLoop e l ⟨db, none, fl⟩).2.2 =
              ((l.take k).map upSeg).flatten ++
                Op.beginTx :: (failTail ++ [Op.rollbackTx]) ∧
            ∀ op ∈ failTail,
              (∃ q ∈ evo.ups, op = Op.stmt q) ∨ op = Op.insertRec evo.version) := by
  intro l
  induction l with
  | nil =>
    intro db fl
    exact ⟨0, Nat.le_refl 0, rfl, Or.inl ⟨rfl, rfl, rfl⟩⟩
  | cons evo rest ih =>
    intro db fl
    by_cases hups : ∀ q ∈ evo.ups, fl q = false
    · cases hdup : db.records.any (fun r => r.version == evo.version)
      · -- script succeeds, loop continues
        have hrun := applyUpLoop_cons_ok e evo rest ⟨db, none, fl⟩
          ⟨dbApplyScript db evo, none, fl⟩ (upSeg evo)
          (applyUpStep_ok e evo db fl hups hdup)
        rcases ih (dbApplyScript db evo) fl with ⟨k, hk, hst, hrest⟩
        refine ⟨k + 1, by simpa using Nat.succ_le_succ hk, ?_, ?_⟩
        · rw [hrun]
          simpa [dbAfterScripts] using hst
        · rcases hrest with ⟨hok, hkeq, htr⟩ | ⟨msg, evo', rest', ft, herr, hdrop, htr, hft⟩
          · left
            refine ⟨by rw [hrun]; simpa using hok, by simpa using hkeq, ?_⟩
            rw [hrun]
            simp [htr]
          · right
            refine ⟨msg, evo', rest', ft, by rw [hrun]; simpa using herr,
              by simpa using hdrop, ?_, hft⟩
            rw [hrun]
            simp [htr]
      · -- duplicate version: insert fails, transaction rolled back
        have hrun := applyUpLoop_cons_err e evo rest ⟨db, none, fl⟩ ⟨db, none, fl⟩
          "duplicate key value violates unique constraint"
          (Op.beginTx :: (evo.ups.map Op.stmt ++ [Op.insertRec evo.version, Op.rollbackTx]))
          (applyUpStep_fail_dup e evo db fl hups hdup)
        refine ⟨0, Nat.zero_le _, by rw [hrun]; rfl, Or.inr
          ⟨"duplicate key value violates unique constraint", evo, rest,
           evo.ups.map Op.stmt ++ [Op.insertRec evo.version], by rw [hrun], rfl, ?_, ?_⟩⟩
        · rw [hrun]
          simp
        · intro op hop
          rcases List.mem_append.mp hop with hs | hi
          · rcases List.mem_map.mp hs with ⟨q, hq, rfl⟩
            exact Or.inl ⟨q, hq, rfl⟩
          · simp at hi
            exact Or.inr (by rw [hi])
    · -- some up statement fails
      rcases exists_first_fail evo.ups hups with ⟨pre, q, post, hsplit, hpre, hq⟩
      have hrun := applyUpLoop_cons_err e evo rest ⟨db, none, fl⟩ ⟨db, none, fl⟩
        ("statement failed: " ++ q)
        (Op.beginTx :: ((pre ++ [q]).map Op.stmt ++ [Op.rollbackTx]))
        (applyUpStep_fail_stmt e evo db fl pre q post hsplit hpre hq)
      refine ⟨0, Nat.zero_le _, by rw [hrun]; rfl, Or.inr
        ⟨"statement failed: " ++ q, evo, rest, (pre ++ [q]).map Op.stmt,
         by rw [hrun], rfl, ?_, ?_⟩⟩
      · rw [hrun]
        simp
      · intro op hop
        rcases List.mem_map.mp hop with ⟨r, hr, rfl⟩
        refine Or.inl ⟨r, ?_, rfl⟩
        rw [hsplit]
        rcases List.mem_append.mp hr with h1 | h2
        · exact List.mem_append.mpr (Or.inl h1)
        · simp at h2
          subst h2
          exact List.mem_append.mpr (Or.inr (List.mem_cons_self r post))

theorem applyUp_decomp (e : Engine) (db : DbState) (fl : String → Bool) :
    Evolutions.applyUp e ⟨db, none, fl⟩ =
      ((Evolutions.applyUpLoop e (e.evolutions.drop (currentVersionOf db))
          ⟨db, none, fl⟩).1,
       (Evolutions.applyUpLoop e (e.evolutions.drop (currentVersionOf db))
          ⟨db, none, fl⟩).2.1,
       Op.selectCurrent ::
         (Evolutions.applyUpLoop e (e.evolutions.drop (currentVersionOf db))
            ⟨db, none, fl⟩).2.2) := by
  conv_lhs => unfold Evolutions.applyUp
  unfold bindE Evolutions.getCurrent currentVersionOf
  cases hm : maxRecord db.records <;> rfl

theorem versionsFrom_filter_drop :
    ∀ (l : List LoadedEvolution) (b : Nat),
    (∀ (i : Nat) (h : i < l.length), (l.get ⟨i, h⟩).version = b + i + 1) →
    ∀ n : Nat, l.filter (fun evo => decide (n < evo.version)) = l.drop (n - b) := by
  intro l
  induction l with
  | nil => intro b _ n; simp
  | cons x xs ih =>
    intro b h n
    have hx : x.version = b + 1 := by
      have := h 0 (by simp)
      simpa using this
    have hxs : ∀ (i : Nat) (hi : i < xs.length),
        (xs.get ⟨i, hi⟩).version = (b + 1) + i + 1 := by
      intro i hi
      have := h (i + 1) (by simpa using Nat.succ_lt_succ hi)
      rw [List.get_cons_succ] at this
      rw [this]
      omega
    by_cases hn : n < b + 1
    · rw [List.filter_cons]
      have hdec : decide (n < x.version) = true := by
        rw [hx]; exact decide_eq_true hn
      rw [hdec]
      simp only [if_true]
      rw [ih (b + 1) hxs n]
      have h1 : n - b = 0 := by omega
      have h2 : n - (b + 1) = 0 := by omega
      rw [h1, h2]
      simp
    · rw [List.filter_cons]
      have hdec : decide (n < x.version) = false := by
        rw [hx]
        simpa using hn
      rw [hdec]
      simp only [Bool.false_eq_true, if_false]
      rw [ih (b + 1) hxs n]
      have h3 : n - b = (n - (b + 1)) + 1 := by omega
      rw [h3, List.drop_succ_cons]

theorem versionsFrom_pairwise :
    ∀ (l : List LoadedEvolution) (b : Nat),
    (∀ (i : Nat) (h : i < l.length), (l.get ⟨i, h⟩).version = b + i + 1) →
    List.Pairwise (fun a c => a.version < c.version) l := by
  intro l
  induction l with
  | nil => intro b _; exact List.Pairwise.nil
  | cons x xs ih =>
    intro b h
    have hx : x.version = b + 1 := by
      have := h 0 (by simp)
      simpa using this
    have hxs : ∀ (i : Nat) (hi : i < xs.length),
        (xs.get ⟨i, hi⟩).version = (b + 1) + i + 1 := by
      intro i hi
      have := h (i + 1) (by simpa using Nat.succ_lt_succ hi)
      rw [List.get_cons_succ] at this
      rw [this]
      omega
    refine List.Pairwise.cons ?_ (ih (b + 1) hxs)
    intro y hy
    rcases List.get_of_mem hy with ⟨⟨i, hi⟩, rfl⟩
    rw [hx, hxs i hi]
    omega

/-- Claim C2.  For a desired sequence produced by the loader
(version = position + 1) and any current version (0 when no record
exists), `applyUp` processes exactly the desired entries with version
above the current one, in increasing version order; a prefix of them is
committed, each inside its own transaction wrapping its ups and its
record insert; either every entry succeeded, or the run stops at the
first failing entry with exactly that entry's transaction rolled back
(its effects absent from the final state), the error propagated, and the
remaining entries unattempted, while the earlier commits stay
applied. -/
theorem C2_applyUp_transactional (e : Engine) (db : DbState) (fl : String → Bool)
    (hver : versionsOk e.evolutions) :
    e.evolutions.drop (currentVersionOf db) =
      e.evolutions.filter (fun evo => decide (currentVersionOf db < evo.version)) ∧
    List.Pairwise (fun a b => a.version < b.version)
      (e.evolutions.drop (currentVersionOf db)) ∧
    ∃ k, k ≤ (e.evolutions.drop (currentVersionOf db)).length ∧
      (Evolutions.applyUp e ⟨db, none, fl⟩).2.1 =
        ⟨dbAfterScripts db ((e.evolutions.drop (currentVersionOf db)).take k),
         none, fl⟩ ∧
      ((Evolutions.applyUp e ⟨db, none, fl⟩).1 = Except.ok () ∧
          k = (e.evolutions.drop (currentVersionOf db)).length ∧
          (Evolutions.applyUp e ⟨db, none, fl⟩).2.2 =
            Op.selectCurrent ::
              ((e.evolutions.drop (currentVersionOf db)).map upSeg).flatten
        ∨ ∃ msg evo rest failTail,
            (Evolutions.applyUp e ⟨db, none, fl⟩).1 = Except.error msg ∧
            (e.evolutions.drop (currentVersionOf db)).drop k = evo :: rest ∧
            (Evolutions.applyUp e ⟨db, none, fl⟩).2.2 =
              Op.selectCurrent ::
                (((e.evolutions.drop (currentVersionOf db)).take k).map upSeg).flatten ++
                Op.beginTx :: (failTail ++ [Op.rollbackTx]) ∧
            ∀ op ∈ failTail,
              (∃ q ∈ evo.ups, op = Op.stmt q) ∨ op = Op.insertRec evo.version) := by
  have hfd : e.evolutions.filter
      (fun evo => decide (currentVersionOf db < evo.version)) =
      e.evolutions.drop (currentVersionOf db) := by
    have := versionsFrom_filter_drop e.evolutions 0
      (by intro i h; simpa using hver i h) (currentVersionOf db)
    simpa using this
  have hpw : List.Pairwise (fun a c => a.version < c.version)
      (e.evolutions.drop (currentVersionOf db)) :=
    List.Pairwise.sublist (List.drop_sublist _ _)
      (versionsFrom_pairwise e.evolutions 0 (by intro i h; simpa using hver i h))
  refine ⟨hfd.symm, hpw, ?_⟩
  rcases applyUpLoop_spec e (e.evolutions.drop (currentVersionOf db)) db fl
    with ⟨k, hk, hst, hrest⟩
  refine ⟨k, hk, ?_, ?_⟩
  · rw [applyUp_decomp]
    exact hst
  · rcases hrest with ⟨hok, hkeq, htr⟩ | ⟨msg, evo, rest, ft, herr, hdrop, htr, hft⟩
    · left
      rw [applyUp_decomp]
      exact ⟨hok, hkeq, by rw [htr]⟩
    · right
      refine ⟨msg, evo, rest, ft, ?_, hdrop, ?_, hft⟩
      · rw [applyUp_decomp]
        exact herr
      · rw [applyUp_decomp]
        simp only
        rw [htr]
        simp

/-- Witness for C2 at a concrete run where the second script's second
statement fails. -/
theorem C2_witness :
    versionsOk fixEngineTwo.evolutions ∧
    (fixEngineTwo.evolutions.drop (currentVersionOf ⟨true, [], []⟩) =
      fixEngineTwo.evolutions.filter
        (fun evo => decide (currentVersionOf ⟨true, [], []⟩ < evo.version)) ∧
    List.Pairwise (fun a b => a.version < b.version)
      (fixEngineTwo.evolutions.drop (currentVersionOf ⟨true, [], []⟩)) ∧
    ∃ k, k ≤ (fixEngineTwo.evolutions.drop (currentVersionOf ⟨true, [], []⟩)).length ∧
      (Evolutions.applyUp fixEngineTwo ⟨⟨true, [], []⟩, none, failP2b⟩).2.1 =
        ⟨dbAfterScripts ⟨true, [], []⟩
           ((fixEngineTwo.evolutions.drop (currentVersionOf ⟨true, [], []⟩)).take k),
         none, failP2b⟩ ∧
      ((Evolutions.applyUp fixEngineTwo ⟨⟨true, [], []⟩, none, failP2b⟩).1 =
            Except.ok () ∧
          k = (fixEngineTwo.evolutions.drop (currentVersionOf ⟨true, [], []⟩)).length ∧
          (Evolutions.applyUp fixEngineTwo ⟨⟨true, [], []⟩, none, failP2b⟩).2.2 =
            Op.selectCurrent ::
              ((fixEngineTwo.evolutions.drop
                  (currentVersionOf ⟨true, [], []⟩)).map upSeg).flatten
        ∨ ∃ msg evo rest failTail,
            (Evolutions.applyUp fixEngineTwo ⟨⟨true, [], []⟩, none, failP2b⟩).1 =
              Except.error msg ∧
            (fixEngineTwo.evolutions.drop (currentVersionOf ⟨true, [], []⟩)).drop k =
              evo :: rest ∧
            (Evolutions.applyUp fixEngineTwo ⟨⟨true, [], []⟩, none, failP2b⟩).2.2 =
              Op.selectCurrent ::
                (((fixEngineTwo.evolutions.drop
                    (currentVersionOf ⟨true, [], []⟩)).take k).map upSeg).flatten ++
                Op.beginTx :: (failTail ++ [Op.rollbackTx]) ∧
            ∀ op ∈ failTail,
              (∃ q ∈ evo.ups, op = Op.stmt q) ∨ op = Op.insertRec evo.version)) :=
  ⟨by
    intro i h
    have h2 : i < 2 := by simpa [fixEngineTwo] using h
    interval_cases i <;> rfl,
   C2_applyUp_transactional fixEngineTwo ⟨true, [], []⟩ failP2b (by
    intro i h
    have h2 : i < 2 := by simpa [fixEngineTwo] using h
    interval_cases i <;> rfl)⟩

/-- Claim C1 (code bug at `src/evolutions.ts` line 129).  In the
drift-repair scenario — database at version 3 whose record 3 carries a
checksum differing from desired script 3 and has recorded downs,
`allowDown` set — the intended sequential semantics of `apply` (this
model awaits the `downgrade` call inside `applyDown`; the source omits
that `await`, unlike `downTo` at line 102) executes exactly the recorded
downs of version 3 inside one transaction, deletes that version's row,
then re-executes the new script 3's ups and inserts its record, ending
at version 3 with the new checksum. -/
theorem C1_drift_repair_intended_model :
    (Evolutions.hasDown fixEngineRepair fixStateDrift).1 = Except.ok true ∧
    (Evolutions.apply fixEngineRepair fixStateDrift).1 = Except.ok () ∧
    ((Evolutions.apply fixEngineRepair fixStateDrift).2.1.db.records.map
      (fun r => (r.version, r.checksum))) = [(1, "c1"), (2, "c2"), (3, "c3new")] ∧
    ((maxRecord (Evolutions.apply fixEngineRepair fixStateDrift).2.1.db.records).map
      (fun r => (r.version, r.checksum))) = some (3, "c3new") ∧
    (Evolutions.apply fixEngineRepair fixStateDrift).2.1.db.journal =
      ["d3a;", "d3b;", "u3new;"] ∧
    (Evolutions.apply fixEngineRepair fixStateDrift).2.2 =
      [Op.catalogRead, Op.selectCurrent, Op.catalogRead, Op.selectCurrent,
       Op.selectCurrent, Op.beginTx, Op.stmt "d3a;", Op.stmt "d3b;",
       Op.deleteRec 3, Op.commitTx, Op.selectCurrent, Op.selectCurrent,
       Op.beginTx, Op.stmt "u3new;", Op.insertRec 3, Op.commitTx,
       Op.selectCurrent] := by
  refine ⟨rfl, rfl, by decide, by decide, by decide, by decide⟩

theorem maxRecord_eq_none : ∀ {l : List LoadedEvolution}, maxRecord l = none → l = [] := by
  intro l h
  cases l with
  | nil => rfl
  | cons r rs =>
    unfold maxRecord at h
    rcases hm : maxRecord rs with _ | m <;> rw [hm] at h
    · cases h
    · simp only at h
      split at h <;> cases h

theorem maxRecord_le : ∀ {l : List LoadedEvolution} {m : LoadedEvolution},
    maxRecord l = some m → ∀ r ∈ l, r.version ≤ m.version := by
  intro l
  induction l with
  | nil => intro m h; cases h
  | cons r rs ih =>
    intro m h x hx
    unfold maxRecord at h
    rcases hm : maxRecord rs with _ | m' <;> rw [hm] at h
    · cases h
      rcases List.mem_cons.mp hx with rfl | hx'
      · exact Nat.le_refl _
      · rw [maxRecord_eq_none hm] at hx'
        cases hx'
    · simp only at h
      split at h
      · cases h
        rcases List.mem_cons.mp hx with rfl | hx'
        · omega
        · exact ih hm x hx'
      · cases h
        rcases List.mem_cons.mp hx with rfl | hx'
        · exact Nat.le_refl _
        · have := ih hm x hx'
          omega

theorem maxRecord_append_right :
    ∀ (l1 l2 : List LoadedEvolution) (m : LoadedEvolution),
    maxRecord l2 = some m → (∀ r ∈ l1, r.version < m.version) →
    maxRecord (l1 ++ l2) = some m := by
  intro l1
  induction l1 with
  | nil => intro l2 m h _; simpa using h
  | cons r rs ih =>
    intro l2 m h hlt
    rw [List.cons_append]
    unfold maxRecord
    rw [ih l2 m h (fun x hx => hlt x (List.mem_cons_of_mem r hx))]
    simp only
    rw [if_pos (hlt r (List.mem_cons_self r rs))]

theorem maxRecord_pairwise_last :
    ∀ (l : List LoadedEvolution),
    List.Pairwise (fun a c => a.version < c.version) l →
    ∀ (i : Fin l.length), i.val = l.length - 1 →
    maxRecord l = some (l.get i) := by
  intro l
  induction l with
  | nil => intro _ i _; exact absurd i.isLt (by simp)
  | cons r rs ih =>
    intro hpw i hi
    cases rs with
    | nil =>
      obtain ⟨v, hv⟩ := i
      simp only [List.length_cons, List.length_nil] at hi
      subst hi
      rfl
    | cons x xs =>
      have hpw' := List.Pairwise.sublist (List.sublist_cons_self r (x :: xs)) hpw
      have hrec := ih hpw' ⟨xs.length, Nat.lt_succ_self _⟩ (by simp)
      unfold maxRecord
      rw [hrec]
      simp only
      have hmem : (x :: xs).get ⟨xs.length, Nat.lt_succ_self _⟩ ∈ x :: xs :=
        List.get_mem _ _ _
      have hlt : r.version < ((x :: xs).get ⟨xs.length, Nat.lt_succ_self _⟩).version :=
        (List.pairwise_cons.mp hpw).1 _ hmem
      rw [if_pos hlt]
      obtain ⟨v, hv⟩ := i
      have hveq : v = xs.length + 1 := by simpa using hi
      subst hveq
      rfl

theorem downgrade_run_some_ok (e : Engine) (cur : LoadedEvolution) (db : DbState)
    (fl : String → Bool) (ds : List String)
    (hds : cur.downs = some ds) (hok : ∀ q ∈ ds, fl q = false) :
    Evolutions.downgrade e cur ⟨db, none, fl⟩ =
      (Except.ok (),
       ⟨{ db with
            records := db.records.filter (fun r => r.version ≠ cur.version)
            journal := db.journal ++ ds }, none, fl⟩,
       Op.beginTx :: (ds.map Op.stmt ++ [Op.deleteRec cur.version, Op.commitTx])) := by
  unfold Evolutions.downgrade bindE tryCatchE queryBegin queryCommit
  unfold Evolutions.evolutionDropped
  rw [hds]
  simp only
  rw [applySingle_ok ds db (some db) fl hok]
  simp

theorem downgrade_run_none (e : Engine) (cur : LoadedEvolution) (db : DbState)
    (fl : String → Bool) (hds : cur.downs = none) :
    Evolutions.downgrade e cur ⟨db, none, fl⟩ =
      (Except.ok (),
       ⟨{ db with records := db.records.filter (fun r => r.version ≠ cur.version) },
        none, fl⟩,
       [Op.beginTx, Op.deleteRec cur.version, Op.commitTx]) := by
  unfold Evolutions.downgrade bindE tryCatchE queryBegin queryCommit pureE
  unfold Evolutions.evolutionDropped
  rw [hds]
  simp

theorem downgrade_run_fail (e : Engine) (cur : LoadedEvolution) (db : DbState)
    (fl : String → Bool) (ds pre : List String) (q : String) (post : List String)
    (hds : cur.downs = some ds) (hsplit : ds = pre ++ q :: post)
    (hpre : ∀ r ∈ pre, fl r = false) (hq : fl q = true) :
    Evolutions.downgrade e cur ⟨db, none, fl⟩ =
      (Except.error ("statement failed: " ++ q), ⟨db, none, fl⟩,
       Op.beginTx :: ((pre ++ [q]).map Op.stmt ++ [Op.rollbackTx])) := by
  unfold Evolutions.downgrade bindE tryCatchE queryBegin queryRollback throwE
  rw [hds, hsplit]
  simp only
  rw [applySingle_fail pre q post db (some db) fl hpre hq]
  simp

theorem dbAfterScripts_records :
    ∀ (l : List LoadedEvolution) (d : DbState),
    (dbAfterScripts d l).records = d.records ++ l := by
  intro l
  induction l with
  | nil => intro d; simp [dbAfterScripts]
  | cons evo rest ih =>
    intro d
    show (dbAfterScripts (dbApplyScript d evo) rest).records = _
    rw [ih]
    simp [dbApplyScript]

theorem dbAfterScripts_schema :
    ∀ (l : List LoadedEvolution) (d : DbState),
    (dbAfterScripts d l).schemaExists = d.schemaExists := by
  intro l
  induction l with
  | nil => intro d; rfl
  | cons evo rest ih =>
    intro d
    show (dbAfterScripts (dbApplyScript d evo) rest).schemaExists = _
    rw [ih]
    rfl

theorem jsIndex_some_bounds {α : Type} {l : List α} {i : Int} {x : α}
    (h : jsIndex l i = some x) : 0 ≤ i ∧ i < l.length := by
  unfold jsIndex at h
  split at h
  · assumption
  · cases h

theorem jsIndex_get {α : Type} (l : List α) (n : Nat) (h : n < l.length) :
    jsIndex l (n : Int) = some (l.get ⟨n, h⟩) := by
  unfold jsIndex
  rw [dif_pos ⟨Int.natCast_nonneg n, by exact_mod_cast h⟩]
  simp

theorem noDrift_hasDownB_false (e : Engine) (d : DbState) (hnd : noDrift e d) :
    hasDownB e d = false := by
  unfold hasDownB
  split
  · rfl
  · rcases hnd with hm | ⟨cur, hm, hcase⟩
    · rw [hm]
    · rw [hm]
      simp only
      rcases hcase with hlt | ⟨exp, hexp, hck⟩
      · rw [if_pos hlt]
      · have hb := jsIndex_some_bounds hexp
        rw [if_neg (by omega)]
        rw [hexp]
        simp [hck]

theorem hasDownB_false_noDrift (e : Engine) (d : DbState) (hse : d.schemaExists = true)
    (h : hasDownB e d = false) : noDrift e d := by
  unfold hasDownB at h
  rw [if_neg (by simp [hse])] at h
  rcases hm : maxRecord d.records with _ | cur
  · exact Or.inl hm
  · rw [hm] at h
    simp only at h
    split at h
    · exact Or.inr ⟨cur, hm, Or.inl (by omega)⟩
    · rcases hexp : jsIndex e.evolutions ((cur.version : Int) - 1) with _ | exp
      · rw [hexp] at h
        simp at h
      · rw [hexp] at h
        have h2 : exp.checksum = cur.checksum := by simpa using h
        exact Or.inr ⟨cur, hm, Or.inr ⟨exp, hexp, h2.symm⟩⟩

theorem applyUp_ok_post (e : Engine) (db : DbState) (fl : String → Bool)
    (hver : versionsOk e.evolutions) (hnd : noDrift e db)
    (hok : (Evolutions.applyUp e ⟨db, none, fl⟩).1 = Except.ok ()) :
    ∃ db', (Evolutions.applyUp e ⟨db, none, fl⟩).2.1 = ⟨db', none, fl⟩ ∧
      db'.schemaExists = db.schemaExists ∧ noDrift e db' ∧
      e.evolutions.drop (currentVersionOf db') = [] := by
  rcases applyUpLoop_spec e (e.evolutions.drop (currentVersionOf db)) db fl
    with ⟨k, hk, hst, hrest⟩
  have hproj1 : (Evolutions.applyUp e ⟨db, none, fl⟩).1 =
      (Evolutions.applyUpLoop e (e.evolutions.drop (currentVersionOf db))
        ⟨db, none, fl⟩).1 := by
    rw [applyUp_decomp]
  have hproj2 : (Evolutions.applyUp e ⟨db, none, fl⟩).2.1 =
      (Evolutions.applyUpLoop e (e.evolutions.drop (currentVersionOf db))
        ⟨db, none, fl⟩).2.1 := by
    rw [applyUp_decomp]
  rw [hproj1] at hok
  rcases hrest with ⟨_, hkeq, _⟩ | ⟨msg, evo, rest, ft, herr, _, _, _⟩
  swap
  · rw [herr] at hok
    cases hok
  set l := e.evolutions.drop (currentVersionOf db) with hl
  rw [hkeq, List.take_length] at hst
  refine ⟨dbAfterScripts db l, by rw [hproj2, hst], dbAfterScripts_schema l db, ?_⟩
  by_cases hnil : l = []
  · constructor
    · have : dbAfterScripts db l = db := by rw [hnil]; rfl
      rw [this]
      exact hnd
    · have : dbAfterScripts db l = db := by rw [hnil]; rfl
      rw [this, ← hl, hnil]
  · have hnlt : currentVersionOf db < e.evolutions.length := by
      by_contra hge
      exact hnil (by rw [hl]; exact List.drop_eq_nil_of_le (by omega))
    have hlenl : l.length = e.evolutions.length - currentVersionOf db := by
      rw [hl]
      exact List.length_drop _ _
    have hlpos : 0 < l.length := List.length_pos.mpr hnil
    have hpw : List.Pairwise (fun a c => a.version < c.version) l := by
      rw [hl]
      exact List.Pairwise.sublist (List.drop_sublist _ _)
        (versionsFrom_pairwise e.evolutions 0 (by intro i h; simpa using hver i h))
    have hbound : l.length - 1 < l.length := Nat.sub_lt hlpos Nat.one_pos
    have hmax_l : maxRecord l = some (l.get ⟨l.length - 1, hbound⟩) :=
      maxRecord_pairwise_last l hpw ⟨l.length - 1, hbound⟩ rfl
    have hebound : e.evolutions.length - 1 < e.evolutions.length := by omega
    have hq : l[l.length - 1]? = e.evolutions[e.evolutions.length - 1]? := by
      rw [hl]
      rw [List.getElem?_drop]
      have hidx : currentVersionOf db + (l.length - 1) = e.evolutions.length - 1 := by
        omega
      rw [← hl, hidx]
    have hmg : l.get ⟨l.length - 1, hbound⟩ =
        e.evolutions.get ⟨e.evolutions.length - 1, hebound⟩ := by
      have h1 : l[l.length - 1]? = some (l.get ⟨l.length - 1, hbound⟩) :=
        List.getElem?_eq_getElem hbound
      have h2 : e.evolutions[e.evolutions.length - 1]? =
          some (e.evolutions.get ⟨e.evolutions.length - 1, hebound⟩) :=
        List.getElem?_eq_getElem hebound
      rw [h1, h2] at hq
      exact Option.some.inj hq
    have hver_last : (e.evolutions.get ⟨e.evolutions.length - 1, hebound⟩).version =
        e.evolutions.length := by
      rw [hver (e.evolutions.length - 1) hebound]
      omega
    have hrecs : (dbAfterScripts db l).records = db.records ++ l :=
      dbAfterScripts_records l db
    have hall : ∀ r ∈ db.records,
        r.version < (l.get ⟨l.length - 1, hbound⟩).version := by
      intro r hr
      rw [hmg, hver_last]
      rcases hcv : maxRecord db.records with _ | c
      · rw [maxRecord_eq_none hcv] at hr
        cases hr
      · have h1 := maxRecord_le hcv r hr
        have h2 : currentVersionOf db = c.version := by
          unfold currentVersionOf
          rw [hcv]
        omega
    have hmax' : maxRecord (dbAfterScripts db l).records =
        some (l.get ⟨l.length - 1, hbound⟩) := by
      rw [hrecs]
      exact maxRecord_append_right db.records l _ hmax_l hall
    have hcv' : currentVersionOf (dbAfterScripts db l) = e.evolutions.length := by
      unfold currentVersionOf
      rw [hmax', hmg]
      exact hver_last
    constructor
    · refine Or.inr ⟨l.get ⟨l.length - 1, hbound⟩, hmax', Or.inr
        ⟨l.get ⟨l.length - 1, hbound⟩, ?_, rfl⟩⟩
      rw [hmg, hver_last]
      have hcast : ((e.evolutions.length : Int) - 1) =
          ((e.evolutions.length - 1 : Nat) : Int) := by omega
      rw [hcast, jsIndex_get e.evolutions (e.evolutions.length - 1) hebound]
    · rw [hcv']
      exact List.drop_length e.evolutions

theorem createSchema_run_fail1 (e : Engine) (db : DbState) (fl : String → Bool)
    (f1 : fl (createSchemaStmt e.schema) = true) :
    Evolutions.createSchema e ⟨db, none, fl⟩ =
      (Except.error ("statement failed: " ++ createSchemaStmt e.schema),
       ⟨db, some db, fl⟩,
       [Op.beginTx, Op.stmt (createSchemaStmt e.schema)]) := by
  unfold Evolutions.createSchema bindE queryBegin queryBootstrap queryCommit
  simp [f1]

theorem createSchema_run_fail2 (e : Engine) (db : DbState) (fl : String → Bool)
    (f1 : fl (createSchemaStmt e.schema) = false)
    (f2 : fl (createTableStmt e.schema) = true) :
    Evolutions.createSchema e ⟨db, none, fl⟩ =
      (Except.error ("statement failed: " ++ createTableStmt e.schema),
       ⟨{ db with
            schemaExists := db.schemaExists
            journal := db.journal ++ [createSchemaStmt e.schema] }, some db, fl⟩,
       [Op.beginTx, Op.stmt (createSchemaStmt e.schema),
        Op.stmt (createTableStmt e.schema)]) := by
  unfold Evolutions.createSchema bindE queryBegin queryBootstrap queryCommit
  simp [f1, f2]

theorem createSchema_run_ok (e : Engine) (db : DbState) (fl : String → Bool)
    (f1 : fl (createSchemaStmt e.schema) = false)
    (f2 : fl (createTableStmt e.schema) = false) :
    Evolutions.createSchema e ⟨db, none, fl⟩ =
      (Except.ok (),
       ⟨{ db with
            schemaExists := true
            journal := db.journal ++ [createSchemaStmt e.schema,
                                      createTableStmt e.schema] }, none, fl⟩,
       [Op.beginTx, Op.stmt (createSchemaStmt e.schema),
        Op.stmt (createTableStmt e.schema), Op.commitTx]) := by
  unfold Evolutions.createSchema bindE queryBegin queryBootstrap queryCommit
  simp [f1, f2]

theorem createSchema_ok_state (e : Engine) (db : DbState) (fl : String → Bool)
    (sc : ClientState) (tc : List Op)
    (hcs : Evolutions.createSchema e ⟨db, none, fl⟩ = (Except.ok (), sc, tc)) :
    sc = ⟨{ db with
              schemaExists := true
              journal := db.journal ++ [createSchemaStmt e.schema,
                                        createTableStmt e.schema] }, none, fl⟩ := by
  by_cases f1 : fl (createSchemaStmt e.schema) = true
  · rw [createSchema_run_fail1 e db fl f1] at hcs
    exact absurd (congrArg Prod.fst hcs) (by simp)
  · rw [Bool.not_eq_true] at f1
    by_cases f2 : fl (createTableStmt e.schema) = true
    · rw [createSchema_run_fail2 e db fl f1 f2] at hcs
      exact absurd (congrArg Prod.fst hcs) (by simp)
    · rw [Bool.not_eq_true] at f2
      rw [createSchema_run_ok e db fl f1 f2] at hcs
      have := congrArg (fun t => t.2.1) hcs
      simpa using this.symm

theorem apply_proj_noschema (e : Engine) (db : DbState) (fl : String → Bool)
    (sc : ClientState) (tc : List Op) (hse : db.schemaExists = false)
    (hcs : Evolutions.createSchema e ⟨db, none, fl⟩ = (Except.ok (), sc, tc)) :
    (Evolutions.apply e ⟨db, none, fl⟩).1 = (Evolutions.applyUp e sc).1 ∧
    (Evolutions.apply e ⟨db, none, fl⟩).2.1 = (Evolutions.applyUp e sc).2.1 := by
  rcases happ : Evolutions.applyUp e sc with ⟨r, s2, t2⟩
  unfold Evolutions.apply
  simp only [Evolutions.hasSchema, Evolutions.getCurrent, bindE, pureE, hse,
    hcs, happ, Bool.not_false, if_true]
  rcases r with _ | msg <;> simp [pureE, bindE, Evolutions.getCurrent, happ]

theorem apply_err_noschema (e : Engine) (db : DbState) (fl : String → Bool)
    (sc : ClientState) (tc : List Op) (msg : String)
    (hse : db.schemaExists = false)
    (hcs : Evolutions.createSchema e ⟨db, none, fl⟩ = (Except.error msg, sc, tc)) :
    (Evolutions.apply e ⟨db, none, fl⟩).1 = Except.error msg := by
  unfold Evolutions.apply
  simp only [Evolutions.hasSchema, bindE, pureE, hse, hcs, Bool.not_false, if_true]

theorem apply_proj_nodrift (e : Engine) (db : DbState) (fl : String → Bool)
    (hse : db.schemaExists = true) (hdB : hasDownB e db = false) :
    (Evolutions.apply e ⟨db, none, fl⟩).1 =
      (Evolutions.applyUp e ⟨db, none, fl⟩).1 ∧
    (Evolutions.apply e ⟨db, none, fl⟩).2.1 =
      (Evolutions.applyUp e ⟨db, none, fl⟩).2.1 := by
  rcases happ : Evolutions.applyUp e ⟨db, none, fl⟩ with ⟨r, s2, t2⟩
  unfold Evolutions.apply
  simp only [Evolutions.hasSchema, Evolutions.getCurrent, bindE, pureE, hse,
    hasDown_run, hdB, happ, Bool.not_true, if_true, Bool.false_eq_true, if_false]
  rcases r with _ | msg <;> simp [pureE, bindE, Evolutions.getCurrent, happ]

theorem apply_second_noop (e : Engine) (db : DbState) (fl : String → Bool)
    (hse : db.schemaExists = true) (hdB : hasDownB e db = false)
    (hdrop : e.evolutions.drop (currentVersionOf db) = []) :
    Evolutions.apply e ⟨db, none, fl⟩ =
      (Except.ok (), ⟨db, none, fl⟩,
       [Op.catalogRead, Op.selectCurrent, Op.catalogRead, Op.selectCurrent,
        Op.selectCurrent, Op.selectCurrent]) := by
  have happ : Evolutions.applyUp e ⟨db, none, fl⟩ =
      (Except.ok (), ⟨db, none, fl⟩, [Op.selectCurrent]) := by
    rw [applyUp_decomp, hdrop]
    rfl
  unfold Evolutions.apply
  simp only [Evolutions.hasSchema, Evolutions.getCurrent, bindE, pureE, hse,
    hasDown_run, hdB, happ, Bool.not_true, if_true, Bool.false_eq_true, if_false]
  simp

/-- Claim C8 (amended).  After a successful `apply` with `allowDown` and
`ignoreDown` both unset (and a loader-produced desired sequence),
`hasDown` reports false and a second `apply` is a no-op: it succeeds,
leaves the state exactly unchanged, and issues only the six bookkeeping
reads — no up or down script execution and no metadata-row insertion or
deletion.  The frozen claim fails when `ignoreDown` is set: `apply` then
succeeds while leaving the drift in place, see the counterexample.  The
`allowDown` repair path is excluded because as written it runs through
the missing `await` at `src/evolutions.ts` line 129 (the C1 code bug),
so its sequential behaviour is not a property of the source. -/
theorem C8_apply_idempotent (e : Engine) (db : DbState) (fl : String → Bool)
    (hver : versionsOk e.evolutions) (hal : e.allowDown = false)
    (hig : e.ignoreDown = false)
    (hcons : db.schemaExists = false → db.records = [])
    (hok : (Evolutions.apply e ⟨db, none, fl⟩).1 = Except.ok ()) :
    applyIdempotent e ⟨db, none, fl⟩ := by
  have key : ∃ db', (Evolutions.apply e ⟨db, none, fl⟩).2.1 = ⟨db', none, fl⟩ ∧
      db'.schemaExists = true ∧ noDrift e db' ∧
      e.evolutions.drop (currentVersionOf db') = [] := by
    cases hse : db.schemaExists
    · rcases hcs : Evolutions.createSchema e ⟨db, none, fl⟩ with ⟨rc, sc, tc⟩
      rcases rc with msgc | uc
      · exfalso
        have herr := apply_err_noschema e db fl sc tc msgc hse hcs
        rw [herr] at hok
        cases hok
      · cases uc
        have hsc := createSchema_ok_state e db fl sc tc hcs
        obtain ⟨hp1, hp2⟩ := apply_proj_noschema e db fl sc tc hse hcs
        rw [hp1, hsc] at hok
        have hnd : noDrift e { db with
            schemaExists := true
            journal := db.journal ++ [createSchemaStmt e.schema,
                                      createTableStmt e.schema] } := by
          left
          show maxRecord db.records = none
          rw [hcons hse]
          rfl
        rcases applyUp_ok_post e _ fl hver hnd hok with ⟨db', h1, h2, h3, h4⟩
        exact ⟨db', by rw [hp2, hsc]; exact h1, by rw [h2], h3, h4⟩
    · cases hdB : hasDownB e db
      · obtain ⟨hp1, hp2⟩ := apply_proj_nodrift e db fl hse hdB
        rw [hp1] at hok
        have hnd := hasDownB_false_noDrift e db hse hdB
        rcases applyUp_ok_post e db fl hver hnd hok with ⟨db', h1, h2, h3, h4⟩
        exact ⟨db', by rw [hp2]; exact h1, by rw [h2]; exact hse, h3, h4⟩
      · exfalso
        have herr : (Evolutions.apply e ⟨db, none, fl⟩).1 =
            Except.error "Database has down migrations. For development use `allowDown` option to apply them. NEVER USE FOR PRODUCTION!" := by
          unfold Evolutions.apply
          simp [Evolutions.hasSchema, Evolutions.getCurrent, bindE, pureE,
            throwE, hse, hasDown_run, hdB, hal, hig]
        rw [herr] at hok
        cases hok
  rcases key with ⟨db', hS, hse', hnd', hdrop'⟩
  unfold applyIdempotent
  rw [hS]
  constructor
  · rw [hasDown_run]
    simp [noDrift_hasDownB_false e db' hnd']
  · exact apply_second_noop e db' fl hse' (noDrift_hasDownB_false e db' hnd') hdrop'

/-- Claim C8 as frozen is false when `ignoreDown` is set: at version 1
with a checksum mismatch at the top, `apply` succeeds (the drift is
ignored, nothing is reapplied) yet `hasDown` still reports true
afterwards. -/
theorem C8_counterexample :
    (Evolutions.apply fixEngineIgnore fixStateIgnore).1 = Except.ok () ∧
    (Evolutions.hasDown fixEngineIgnore
      (Evolutions.apply fixEngineIgnore fixStateIgnore).2.1).1 = Except.ok true := by
  constructor <;> rfl

set_option maxHeartbeats 1000000 in
/-- Witness for C8: a fresh database brought to version 2, then
re-applied. -/
theorem C8_witness :
    versionsOk fixEngineTwo.evolutions ∧
    fixEngineTwo.allowDown = false ∧
    fixEngineTwo.ignoreDown = false ∧
    (Evolutions.apply fixEngineTwo ⟨⟨false, [], []⟩, none, noFailOracle⟩).1 =
      Except.ok () ∧
    applyIdempotent fixEngineTwo ⟨⟨false, [], []⟩, none, noFailOracle⟩ :=
  ⟨by
    intro i h
    have h2 : i < 2 := by simpa [fixEngineTwo] using h
    interval_cases i <;> rfl,
   rfl, rfl, rfl,
   C8_apply_idempotent fixEngineTwo ⟨false, [], []⟩ noFailOracle
     (by
       intro i h
       have h2 : i < 2 := by simpa [fixEngineTwo] using h
       interval_cases i <;> rfl)
     rfl rfl (fun _ => rfl) rfl⟩

/-- Witness for C4: a whitespace-only line processed at an empty buffer
leaves the state unchanged. -/
theorem C4_witness :
    (jsTrim "   ").length = 0 ∧
    stepLine ⟨["x;"], [], false, "", false⟩ "   " = ⟨["x;"], [], false, "", false⟩ :=
  ⟨by decide, by
    have h := (C4_blank_comment_lines ⟨["x;"], [], false, "", false⟩ "   "
      (Or.inl (by decide))).1
    simpa using h⟩
